import Mathlib

/-!
Verification of the forced-spike GLIF simulation core
(`allensdk/model/glif/glif_optimizer_neuron.py`) against its design
specification.  The Python code is shallowly embedded: float values become
`Option ℚ` (with `none` standing for a non-finite value, NaN), numpy arrays
become lists, the externally supplied `dynamics` and `reset` collaborators
become function parameters, and exceptions become `Except` error values.
-/

set_option maxHeartbeats 1000000
set_option linter.unusedVariables false

attribute [local semireducible] Rat.mul Rat.add Rat.sub Rat.inv

namespace Glif

/-- A floating-point value of the simulation: `some q` is a finite float with
exact value `q`; `none` models a non-finite float.  The source only ever tests
non-finiteness via `np.isnan(x) or np.isinf(x)`; the concrete non-finite
values used in the theorems behave like NaN (ordered comparisons involving
them are false and arithmetic propagates them). -/
abbrev V := Option ℚ

/-- Float addition; a non-finite operand poisons the result. -/
def vAdd : V → V → V
  | some a, some b => some (a + b)
  | _, _ => none

/-- Float subtraction; a non-finite operand poisons the result. -/
def vSub : V → V → V
  | some a, some b => some (a - b)
  | _, _ => none

/-- Float multiplication; a non-finite operand poisons the result. -/
def vMul : V → V → V
  | some a, some b => some (a * b)
  | _, _ => none

/-- Float division; a non-finite operand, or a zero divisor, gives a
non-finite result (float x/0 is inf or NaN, both caught by the isnan/isinf
checks of the source). -/
def vDiv : V → V → V
  | some a, some b => if b = 0 then none else some (a / b)
  | _, _ => none

/-- Float `np.ceil`. -/
def vCeil : V → V
  | some a => some (⌈a⌉ : ℚ)
  | none => none

/-- Strict `>` on float values; a comparison involving a non-finite (NaN)
value is false. -/
def vGT : V → V → Bool
  | some a, some b => decide (b < a)
  | _, _ => false

/-- The isnan/isinf test of the source, on one value. -/
def vFinite (v : V) : Bool := v.isSome

/-- The precondition check of `run_until_biological_spike` (line 538): the
state is usable iff voltage, threshold and every after-spike current are
finite. -/
def stateFinite (v th : V) (asc : List V) : Bool :=
  vFinite v && vFinite th && asc.all vFinite

/-- Python indexing `l[i]` with a possibly negative index (wrap-around from
the end); out-of-range access, which raises IndexError in Python, is mapped
to `none` and is never hit by the theorems below. -/
def pyIdx (l : List V) (i : ℤ) : V :=
  if i < 0 then
    if (-i).toNat ≤ l.length then l.getD (l.length - (-i).toNat) none else none
  else l.getD i.toNat none

/-- Modelled from the spec: `glif_neuron.line_crossing_x` is called by the
source but its module is not under `src/`.  Spec section 4.1: given the
voltage line through `(0, v0)`, `(dt, v1)` and the threshold line through
`(0, th0)`, `(dt, th1)`, return the time offset of their intersection,
`dt * (th0 - v0) / ((v1 - v0) - (th1 - th0))`. -/
def line_crossing_x (dt : ℚ) (v0 v1 th0 th1 : V) : V :=
  vDiv (vMul (some dt) (vSub th0 v0)) (vSub (vSub v1 v0) (vSub th1 th0))

/-- Modelled from the spec: `glif_neuron.line_crossing_y` is called by the
source but its module is not under `src/`.  Spec section 4.1: the common value
of the two lines at the crossing time, `v0 + (v1 - v0) * t / dt`. -/
def line_crossing_y (dt : ℚ) (v0 v1 th0 th1 : V) : V :=
  vAdd v0 (vDiv (vMul (vSub v1 v0) (line_crossing_x dt v0 v1 th0 th1)) (some dt))

/-- Modelled from the spec: `glif_neuron.interpolate_spike_time` is called by
the source but its module is not under `src/`.  By spec section 4.1 the
interpolated spike time for the sample pair starting at grid step `time_step`
is the start time of that step plus the in-pair line-crossing time offset
(the exact mirror of `interpolate_spike_voltage`, which is in `src/`,
lines 758-761). -/
def interpolate_spike_time (dt : ℚ) (time_step : ℤ) (th0 th1 v0 v1 : V) : V :=
  vAdd (some ((time_step : ℚ) * dt)) (line_crossing_x dt v0 v1 th0 th1)

/-- Source `interpolate_spike_voltage` (lines 758-761):
`time_step*dt + line_crossing_y(dt, v0, v1, th0, th1)`. -/
def interpolate_spike_voltage (dt : ℚ) (time_step : ℤ) (th0 th1 v0 v1 : V) : V :=
  vAdd (some ((time_step : ℚ) * dt)) (line_crossing_y dt v0 v1 th0 th1)

/-- The scan of `find_first_model_spike` (lines 693-694): index of the first
position where voltage strictly exceeds threshold. -/
def firstCrossAux : List V → List V → ℕ → Option ℕ
  | v :: vs, th :: ths, i => if vGT v th then some i else firstCrossAux vs ths (i + 1)
  | _, _, _ => none

/-- First index `t` with `voltage[t] > threshold[t]`, scanning from 0. -/
def firstCrossIdx (voltage threshold : List V) : Option ℕ :=
  firstCrossAux voltage threshold 0

/-- Source `find_first_model_spike` (lines 690-719).  On the first interior
crossing at index `t` it reports grid time `dt*(t-1)`, grid voltage
`voltage[t-1]` (Python indexing: index `-1` wraps to the last element when
`t = 0`), and interpolation from the pair `(t-1, t)`.  Failing that, if the
one-past-end sample pair crosses, it reports from that pair; otherwise it
returns the all-None tuple, modelled as `Option.none`. -/
def find_first_model_spike (voltage threshold : List V) (voltage_t1 threshold_t1 : V)
    (dt : ℚ) : Option (V × V × V × V) :=
  let num_time_steps := voltage.length
  match firstCrossIdx voltage threshold with
  | some t =>
      some (some (dt * ((t : ℤ) - 1 : ℤ)),
            pyIdx voltage ((t : ℤ) - 1),
            interpolate_spike_time dt ((t : ℤ) - 1)
              (pyIdx threshold ((t : ℤ) - 1)) (pyIdx threshold (t : ℤ))
              (pyIdx voltage ((t : ℤ) - 1)) (pyIdx voltage (t : ℤ)),
            interpolate_spike_voltage dt ((t : ℤ) - 1)
              (pyIdx threshold ((t : ℤ) - 1)) (pyIdx threshold (t : ℤ))
              (pyIdx voltage ((t : ℤ) - 1)) (pyIdx voltage (t : ℤ)))
  | none =>
      if vGT voltage_t1 threshold_t1 then
        some (some (dt * ((num_time_steps : ℤ) - 1 : ℤ)),
              voltage_t1,
              interpolate_spike_time dt ((num_time_steps : ℤ) - 1)
                (pyIdx threshold ((num_time_steps : ℤ) - 1)) threshold_t1
                (pyIdx voltage ((num_time_steps : ℤ) - 1)) voltage_t1,
              interpolate_spike_voltage dt (num_time_steps : ℤ)
                (pyIdx threshold (-1)) threshold_t1
                (pyIdx voltage (-1)) voltage_t1)
      else none

/-- Source `extrapolate_spike_time` (lines 748-751). -/
def extrapolate_spike_time (dt : ℚ) (num_time_steps : ℕ)
    (threshold_t0 threshold_t1 voltage_t0 voltage_t1 : V) : V :=
  line_crossing_x (dt * num_time_steps) voltage_t0 voltage_t1 threshold_t0 threshold_t1

/-- Source `extrapolate_spike_voltage` (lines 753-756). -/
def extrapolate_spike_voltage (dt : ℚ) (num_time_steps : ℕ)
    (threshold_t0 threshold_t1 voltage_t0 voltage_t1 : V) : V :=
  line_crossing_y (dt * num_time_steps) voltage_t0 voltage_t1 threshold_t0 threshold_t1

/-- Source `extrapolate_model_spike_from_endpoints` (lines 721-735): line
endpoints are the first interval sample and the one-past-end sample; the grid
spike time is the interpolated time rounded up to the grid by
`np.ceil(t/dt)*dt`, the grid spike voltage is the non-rounded extrapolated
voltage.  The `neuron` argument of the Python function is unused there and is
dropped. -/
def extrapolate_model_spike_from_endpoints (voltage threshold : List V)
    (voltage_t1 threshold_t1 : V) (dt : ℚ) : V × V × V × V :=
  let num_time_steps := voltage.length
  let interpolated_model_spike_time :=
    extrapolate_spike_time dt num_time_steps (threshold.getD 0 none) threshold_t1
      (voltage.getD 0 none) voltage_t1
  let interpolated_model_spike_voltage :=
    extrapolate_spike_voltage dt num_time_steps (threshold.getD 0 none) threshold_t1
      (voltage.getD 0 none) voltage_t1
  let grid_model_spike_time :=
    vMul (vCeil (vDiv interpolated_model_spike_time (some dt))) (some dt)
  (grid_model_spike_time, interpolated_model_spike_voltage,
   interpolated_model_spike_time, interpolated_model_spike_voltage)

/-- Source `extrapolate_model_spike_from_endpoints_single_tau` (lines
739-746): restrict the trajectory to its trailing window starting at
`max(0, num_time_steps - floor(tau_m/dt))` and extrapolate from endpoints
there.  The `neuron` argument only supplies `tau_m`. -/
def extrapolate_model_spike_from_endpoints_single_tau (tau_m : ℚ)
    (voltage threshold : List V) (voltage_t1 threshold_t1 : V) (dt : ℚ) : V × V × V × V :=
  let num_time_steps := voltage.length
  let ii : ℤ := ⌊tau_m / dt⌋
  let starting_ind : ℤ := max 0 ((num_time_steps : ℤ) - ii)
  extrapolate_model_spike_from_endpoints (voltage.drop starting_ind.toNat)
    (threshold.drop starting_ind.toNat) voltage_t1 threshold_t1 dt

/-- Neuron configuration consumed by the core (spec section 6).  The flag
`adapt_sum_slow_fast` models `threshold_reset_method.name ==
'adapt_sum_slow_fast'`; `endpoints_single_tau` records which extrapolation
strategy was selected by name at construction; `has_spike_logging_keys`
records whether `init_method_data` contains the `a_spike` and `b_spike` keys
read by the failure-path logging at lines 548-551 (a missing key raises
KeyError there). -/
structure Neuron where
  dt : ℚ
  dt_multiplier : ℕ
  spike_cut_length : ℕ
  init_voltage : V
  init_threshold : V
  init_AScurrents : List V
  tau_m : ℚ
  adapt_sum_slow_fast : Bool
  endpoints_single_tau : Bool
  has_spike_logging_keys : Bool
deriving DecidableEq

/-- The external collaborators (spec section 6): `dyn` is
`dynamics(voltage, threshold, AScurrents, stimulus_sample, step_index,
bio_spike_time_steps)`, with the active `self.dt` of the neuron at call time
passed as the last argument since the Python method reads it from shared
state; `rst` is `reset(voltage, threshold, AScurrents)` returning the next
state and the bad-reset flag. -/
structure Dyn where
  dyn : V → V → List V → V → ℕ → List ℕ → ℚ → V × V × List V
  rst : V → V → List V → V × V × List V × Bool

/-- The values of `np.arange(n)[::m]`: multiples of `m` below `n`
(meaningful for `m ≥ 1`; `m = 0` raises in numpy and is guarded at the call
site). -/
def strided (n m : ℕ) : List ℕ := (List.range n).filter (fun i => i % m = 0)

/-- Line 510: `np.append(np.arange(n)[::m], n)`. -/
def local_coarse_indicies (n m : ℕ) : List ℕ := strided n m ++ [n]

/-- Mean of the Python slice `stimulus[a:b]`; the mean of an empty slice is
NaN. -/
def sliceMean (stimulus : List ℚ) (a b : ℕ) : V :=
  let s := (stimulus.drop a).take (b - a)
  if s.length = 0 then none else some (s.sum / s.length)

/-- `np.arange(0, stop, step)` for a positive step. -/
def arangeQ (stop step : ℚ) : List ℚ :=
  (List.range (if 0 < stop ∧ 0 < step then (⌈stop / step⌉).toNat else 0)).map
    (fun i : ℕ => (i : ℚ) * step)

/-- `np.searchsorted(xs, x)` with the default side (left) on a sorted array:
the count of elements strictly below `x`. -/
def searchsortedLeft (xs : List ℚ) (x : ℚ) : ℕ := xs.countP (fun a => a < x)

/-- One evaluation of `scipy.interpolate.interp1d(xs, ys, assume_sorted=True,
bounds_error=False, fill_value=fill)` (linear kind) at `x`: out-of-range
points get `fill`; otherwise the left-searchsorted index is clipped to
`[1, len-1]` and the bracketing segment is evaluated as
`(y_hi - y_lo)/(x_hi - x_lo) * (x - x_lo) + y_lo`. -/
def interpEval (xs : List ℚ) (ys : List V) (fill : V) (x : ℚ) : V :=
  if x < xs.headD 0 ∨ xs.getLastD 0 < x then fill
  else
    let i := min (max (searchsortedLeft xs x) 1) (xs.length - 1)
    let xlo := xs.getD (i - 1) 0
    let xhi := xs.getD i 0
    let ylo := ys.getD (i - 1) none
    let yhi := ys.getD i none
    vAdd (vMul (vDiv (vSub yhi ylo) (some (xhi - xlo))) (some (x - xlo))) ylo

/-- Failures of `run_until_biological_spike`: `invalidState` is the
GlifNeuronException of line 576 carrying the partially filled trajectories
interpolated onto the fine grid; `otherError` covers the non-Glif exceptions
the same code can raise instead (KeyError from the logging at lines 548-551,
ValueError from `interp1d` needing at least 2 sample points, IndexError from
`t_fine_grid[-1]` on an empty interval). -/
inductive IErr where
  | invalidState (voltage threshold : List V) (AScurrent_matrix : List (List V))
  | otherError
deriving DecidableEq

/-- The per-interval context threaded through the coarse-stepping loop of
`run_until_biological_spike`. -/
structure LoopCtx where
  D : Dyn
  stimulus_coarse : List V
  dt_vector : List ℚ
  t_coarse_grid : List ℚ
  start_index : ℕ
  bio_spike_time_steps : List ℕ
  num_time_steps_fine : ℕ
  dt_old : ℚ
  has_keys : Bool

/-- The invalid-state failure payload (lines 538-580).  The buffers passed in
include the just-recorded non-finite state at index `time_step`; the slices
`[:time_step]` used for interpolation exclude it.  A missing logging key
raises KeyError first, and `time_step < 2` makes `interp1d` raise ValueError
(fewer than 2 sample points), so only failures at coarse step 2 or later
produce the GlifNeuronException payload. -/
def failPayload (ctx : LoopCtx) (time_step : ℕ) (vbuf thbuf : List V)
    (ascbuf : List (List V)) (nasc : ℕ) : IErr :=
  if ctx.has_keys = false then .otherError
  else if time_step < 2 then .otherError
  else
    let stop := ctx.t_coarse_grid.getD (time_step - 1) 0
    let temp_fine_grid := arangeQ stop ctx.dt_old
    let xs := ctx.t_coarse_grid.take time_step
    let voltage_with_error := temp_fine_grid.map (interpEval xs (vbuf.take time_step) none)
    let threshold_with_error := temp_fine_grid.map (interpEval xs (thbuf.take time_step) none)
    let filled := temp_fine_grid.length
    let voltage_out_fine :=
      voltage_with_error ++ List.replicate (ctx.num_time_steps_fine - filled) none
    let threshold_out_fine :=
      threshold_with_error ++ List.replicate (ctx.num_time_steps_fine - filled) none
    let ascCol := fun ii => (ascbuf.take time_step).map (fun row => row.getD ii none)
    let AScurrent_matrix :=
      (List.range ctx.num_time_steps_fine).map (fun i =>
        if i < filled then
          (List.range nasc).map (fun ii =>
            interpEval xs (ascCol ii) none (temp_fine_grid.getD i 0))
        else List.replicate nasc none)
    .invalidState voltage_out_fine threshold_out_fine AScurrent_matrix

/-- The coarse-stepping loop of `run_until_biological_spike` (lines 530-594):
record the incoming state into the coarse buffers, abort on a non-finite
state, otherwise set the active dt to the width of the current bin and invoke
the external dynamics.  Returns the filled buffers and the final state, or
the failure together with the active dt at the moment of the raise (the
source does not restore `self.dt` on that path). -/
def integLoop (ctx : LoopCtx) :
    List ℕ → V × V × List V → ℚ → List V × List V × List (List V) →
    Except (IErr × ℚ) ((List V × List V × List (List V)) × (V × V × List V))
  | [], st, _, bufs => .ok (bufs, st)
  | t :: rest, (v, th, asc), curDt, (vb, thb, ab) =>
      let vb2 := vb ++ [v]
      let thb2 := thb ++ [th]
      let ab2 := ab ++ [asc]
      if stateFinite v th asc then
        let newDt := ctx.dt_vector.getD t 0
        let st1 := ctx.D.dyn v th asc (ctx.stimulus_coarse.getD t none)
          (t + ctx.start_index) ctx.bio_spike_time_steps newDt
        integLoop ctx rest st1 newDt (vb2, thb2, ab2)
      else
        .error (failPayload ctx t vb2 thb2 ab2 asc.length, curDt)

/-- The result dictionary of `run_until_biological_spike` (lines 671-688).
The three `..._t0` fields are `Option V` etc. because the trailing-tail path
returns the Python `None` triple there (line 669), modelled as the outer
`none`. -/
structure RunData where
  voltage : List V
  threshold : List V
  AScurrent_matrix : List (List V)
  grid_model_spike_time : V
  interpolated_model_spike_time : V
  grid_model_spike_voltage : V
  interpolated_model_spike_voltage : V
  voltage_t0 : Option V
  threshold_t0 : Option V
  AScurrents_t0 : Option (List V)
  grid_bio_spike_model_voltage : V
  grid_bio_spike_model_threshold : V
deriving DecidableEq

/-- Line 504: `t_fine_grid = np.arange(n) * dt`. -/
def tFineOf (n : ℕ) (dt : ℚ) : List ℚ :=
  (List.range n).map (fun i : ℕ => (i : ℚ) * dt)

/-- Lines 522-523: the coarse time grid, `np.arange(num_coarse - 1)` scaled
by the coarse step, with the final fine-grid time appended (so its last bin
may be shorter, or even of width zero when the stride divides `n - 1`). -/
def tCoarseOf (n m : ℕ) (dt : ℚ) : List ℚ :=
  (List.range ((local_coarse_indicies n m).length - 1)).map
    (fun i : ℕ => (i : ℚ) * (dt * m)) ++ [(tFineOf n dt).getLastD 0]

/-- Line 524: the per-bin widths `t_coarse_grid[1:] - t_coarse_grid[:-1]`. -/
def dtVectorOf (tc : List ℚ) : List ℚ :=
  (List.range (tc.length - 1)).map (fun i => tc.getD (i + 1) 0 - tc.getD i 0)

/-- Line 527: boxcar downsampling of the stimulus over each coarse bin. -/
def stimulusCoarseOf (stimulus : List ℚ) (gc : List ℕ) : List V :=
  (List.range (gc.length - 1)).map
    (fun i => sliceMean stimulus (gc.getD i 0) (gc.getD (i + 1) 0))

/-- The loop context built by `run_until_biological_spike` for an interval
`[start_index, end_index)` (lines 502-527). -/
def integCtx (nrn : Neuron) (D : Dyn) (stimulus : List ℚ)
    (start_index end_index : ℕ) (bio_spike_time_steps : List ℕ) : LoopCtx :=
  ⟨D,
   stimulusCoarseOf stimulus
     ((local_coarse_indicies (end_index - start_index) nrn.dt_multiplier).map
       (· + start_index)),
   dtVectorOf (tCoarseOf (end_index - start_index) nrn.dt_multiplier nrn.dt),
   tCoarseOf (end_index - start_index) nrn.dt_multiplier nrn.dt,
   start_index, bio_spike_time_steps,
   end_index - start_index, nrn.dt, nrn.has_spike_logging_keys⟩

/-- The state before coarse step `t` of the loop (state after `t` external
dynamics calls, each made with the active dt of its bin). -/
def loopPre (ctx : LoopCtx) (st0 : V × V × List V) : ℕ → V × V × List V
  | 0 => st0
  | t + 1 =>
      let st := loopPre ctx st0 t
      ctx.D.dyn st.1 st.2.1 st.2.2 (ctx.stimulus_coarse.getD t none)
        (t + ctx.start_index) ctx.bio_spike_time_steps (ctx.dt_vector.getD t 0)

/-- The tail of `run_until_biological_spike` after the coarse loop succeeded
(lines 596-688): fill the last coarse slot with the final state, restore
`self.dt`, reconstruct the fine-grid trajectories by piecewise-linear
interpolation of the coarse buffers, detect or extrapolate the model spike,
apply the reset hack and the reset, and assemble the result dictionary. -/
def runUntilSuccess (nrn : Neuron) (D : Dyn) (ctx : LoopCtx) (stimulus : List ℚ)
    (end_index : ℕ) (bio_spike_time_steps : List ℕ)
    (vb thb : List V) (ab : List (List V)) (v1 th1 : V) (asc1 : List V) : RunData :=
  let dt_old := nrn.dt
  let t_fine_grid := (List.range ctx.num_time_steps_fine).map (fun i : ℕ => (i : ℚ) * dt_old)
  let vbuf := vb ++ [v1]
  let thbuf := thb ++ [th1]
  let abuf := ab ++ [asc1]
  let fv := interpEval ctx.t_coarse_grid vbuf (vbuf.getLastD none)
  let ft := interpEval ctx.t_coarse_grid thbuf (thbuf.getLastD none)
  let voltage_out := t_fine_grid.map fv
  let threshold_out := t_fine_grid.map ft
  let nasc := asc1.length
  let AScurrent_matrix :=
    t_fine_grid.map (fun t =>
      (List.range nasc).map (fun ii =>
        interpEval ctx.t_coarse_grid (abuf.map (fun row => row.getD ii none))
          ((abuf.getLastD []).getD ii none) t))
  let spk := find_first_model_spike voltage_out threshold_out v1 th1 dt_old
  let r := match spk with
    | some r0 => r0
    | none =>
        if nrn.endpoints_single_tau then
          extrapolate_model_spike_from_endpoints_single_tau nrn.tau_m
            voltage_out threshold_out v1 th1 dt_old
        else
          extrapolate_model_spike_from_endpoints voltage_out threshold_out v1 th1 dt_old
  let num_spikes := bio_spike_time_steps.length
  let v1r :=
    if nrn.adapt_sum_slow_fast = true ∧ 0 < num_spikes ∧ end_index < stimulus.length
    then th1 else v1
  let nxt : Option V × Option V × Option (List V) :=
    if 0 < num_spikes then
      if end_index < stimulus.length then
        let rr := D.rst v1r th1 asc1
        (some rr.1, some rr.2.1, some rr.2.2.1)
      else (none, none, none)
    else (some v1, some th1, some asc1)
  ⟨voltage_out, threshold_out, AScurrent_matrix,
   r.1, r.2.2.1, r.2.1, r.2.2.2,
   nxt.1, nxt.2.1, nxt.2.2,
   v1r, th1⟩

/-- Source `run_until_biological_spike` (lines 455-688).  Returns the result
(or the failure) together with the value of the shared `self.dt` after the
call: it is set to the coarse step at line 508, overwritten with each bin
width at line 589, restored at line 604 on the success path only.  An empty
interval hits `t_fine_grid[-1]` (IndexError, line 523) and a zero refinement
factor makes the stride of line 510 raise; both map to `otherError`. -/
def run_until_biological_spike (nrn : Neuron) (D : Dyn)
    (voltage_t0 threshold_t0 : V) (AScurrents_t0 : List V)
    (stimulus response : List ℚ) (start_index end_index : ℕ)
    (bio_spike_time_steps : List ℕ) : Except IErr RunData × ℚ :=
  let dt_old := nrn.dt
  let dtC := dt_old * nrn.dt_multiplier
  if end_index - start_index = 0 then (.error .otherError, dtC)
  else if nrn.dt_multiplier = 0 then (.error .otherError, dtC)
  else
    let num_time_steps_fine := end_index - start_index
    let local_coarse := local_coarse_indicies num_time_steps_fine nrn.dt_multiplier
    let num_coarse := local_coarse.length
    let ctx := integCtx nrn D stimulus start_index end_index bio_spike_time_steps
    match integLoop ctx (List.range (num_coarse - 1))
        (voltage_t0, threshold_t0, AScurrents_t0) dtC ([], [], []) with
    | .error (e, d) => (.error e, d)
    | .ok ((vb, thb, ab), (v1, th1, asc1)) =>
        (.ok (runUntilSuccess nrn D ctx stimulus end_index bio_spike_time_steps
              vb thb ab v1 th1 asc1), dt_old)

/-- The full output dictionary of `run_with_biological_spikes` (lines
296-312); also used as the accumulator of the driver loop, since the loop
splices each interval result into these arrays in place. -/
structure SimOut where
  voltage : List V
  threshold : List V
  AScurrent_matrix : List (List V)
  grid_ISI : List V
  interpolated_ISI : List V
  grid_model_spike_times : List V
  interpolated_model_spike_times : List V
  grid_model_spike_voltages : List V
  interpolated_model_spike_voltages : List V
  grid_bio_spike_model_voltage : List V
  grid_bio_spike_model_threshold : List V
deriving DecidableEq

/-- Failure outcomes of `run_with_biological_spikes`.  `typeError` is the
init check of line 121 (see `run_with_biological_spikes`); `glifNeuron` is
the re-raised GlifNeuronException of line 294 carrying the full spliced
output; `unboundLocal` is the UnboundLocalError raised by the handler of
lines 272-274 when the failing interval was the zero-biological-spike path,
on which the local arrays it assigns into were never bound; `broadcastError`
is the numpy ValueError when a slice assignment has mismatched lengths (the
handler does this for a failure in the trailing tail, whose `end_index`
still holds the last spike index); `assertionError` is line 195;
`numSpikesMismatch` is the internal-consistency check of lines 261-267;
`otherError` propagates the non-Glif integrator failures, which the
`except GlifNeuronException` clause does not catch. -/
inductive DErr where
  | typeError
  | glifNeuron (out : SimOut)
  | assertionError
  | numSpikesMismatch
  | unboundLocal
  | broadcastError
  | otherError
deriving DecidableEq

/-- Length of the Python slice `arr[a:b]` for an array of length `len`
(clipped at both ends). -/
def pySliceLen (len a b : ℕ) : ℕ := min b len - min a len

/-- Python slice assignment `arr[a:b] = vals` as pure data (requires the
caller to have checked `vals.length = pySliceLen arr.length a b`). -/
def setSlice (arr : List V) (a : ℕ) (vals : List V) : List V :=
  arr.take a ++ vals ++ arr.drop (a + vals.length)

/-- Matrix variant of `setSlice` for `arr[a:b, :] = vals`. -/
def setSliceM (arr : List (List V)) (a : ℕ) (vals : List (List V)) : List (List V) :=
  arr.take a ++ vals ++ arr.drop (a + vals.length)

/-- Splice one interval trajectory triple into the full-length output arrays
at `[a:b]` (lines 223-225, 256-258, 272-274); `none` models the numpy
broadcast ValueError when a length does not match its slice. -/
def spliceTraj (acc : SimOut) (a b : ℕ) (v th : List V) (am : List (List V)) :
    Option SimOut :=
  if v.length = pySliceLen acc.voltage.length a b ∧
     th.length = pySliceLen acc.threshold.length a b ∧
     am.length = pySliceLen acc.AScurrent_matrix.length a b then
    some { acc with
      voltage := setSlice acc.voltage a v
      threshold := setSlice acc.threshold a th
      AScurrent_matrix := setSliceM acc.AScurrent_matrix a am }
  else none

/-- The per-spike loop of `run_with_biological_spikes` (lines 187-248),
iterating over the remaining biological spike indices.  Carries the index of
the current spike, the current start index, the neuron state entering the
interval, and the output accumulator.  Returns the accumulator, the final
start index, the final value of the local `end_index` (needed by the
exception handler when the trailing tail fails), and the state entering the
tail. -/
def driverLoop (nrn : Neuron) (D : Dyn) (stimulus response : List ℚ)
    (spikes_all : List ℕ) :
    List ℕ → ℕ → ℕ → ℕ → V × V × List V → SimOut →
    Except DErr (SimOut × ℕ × ℕ × (V × V × List V))
  | [], spike_num, start_index, last_end, st, acc => .ok (acc, start_index, last_end, st)
  | s :: rest, spike_num, start_index, last_end, (v0, th0, asc0), acc =>
      let end_index := s
      if start_index < end_index then
        match run_until_biological_spike nrn D v0 th0 asc0 stimulus response
            start_index end_index spikes_all with
        | (.error (.invalidState pv pth pam), _) =>
            match spliceTraj acc start_index end_index pv pth pam with
            | none => .error .broadcastError
            | some acc2 => .error (.glifNeuron acc2)
        | (.error .otherError, _) => .error .otherError
        | (.ok rd, _) =>
            match spliceTraj acc start_index end_index rd.voltage rd.threshold
                rd.AScurrent_matrix with
            | none => .error .broadcastError
            | some acc2 =>
                let acc3 : SimOut :=
                  { acc2 with
                    grid_ISI := acc2.grid_ISI.set spike_num rd.grid_model_spike_time
                    interpolated_ISI :=
                      acc2.interpolated_ISI.set spike_num rd.interpolated_model_spike_time
                    grid_model_spike_times :=
                      acc2.grid_model_spike_times.set spike_num
                        (vAdd rd.grid_model_spike_time (some ((start_index : ℚ) * nrn.dt)))
                    interpolated_model_spike_times :=
                      acc2.interpolated_model_spike_times.set spike_num
                        (vAdd rd.interpolated_model_spike_time
                          (some ((start_index : ℚ) * nrn.dt)))
                    grid_model_spike_voltages :=
                      acc2.grid_model_spike_voltages.set spike_num rd.grid_model_spike_voltage
                    interpolated_model_spike_voltages :=
                      acc2.interpolated_model_spike_voltages.set spike_num
                        rd.interpolated_model_spike_voltage
                    grid_bio_spike_model_voltage :=
                      acc2.grid_bio_spike_model_voltage.set spike_num
                        rd.grid_bio_spike_model_voltage
                    grid_bio_spike_model_threshold :=
                      acc2.grid_bio_spike_model_threshold.set spike_num
                        rd.grid_bio_spike_model_threshold }
                let st1 := (rd.voltage_t0.getD none, rd.threshold_t0.getD none,
                            rd.AScurrents_t0.getD [])
                driverLoop nrn D stimulus response spikes_all rest (spike_num + 1)
                  (end_index + nrn.spike_cut_length) end_index st1 acc3
      else .error .assertionError

/-- The (start, end) bounds of the interval-integrator calls that
`run_with_biological_spikes` makes on the spiked path (lines 187-253): one
interval per biological spike, each next start jumping past the spike by the
spike-cut length, then the trailing tail up to the stimulus length.  This is
exactly the bound bookkeeping of `driverLoop` followed by the tail call. -/
def driverIntervalBounds (cut L : ℕ) : ℕ → List ℕ → List (ℕ × ℕ)
  | start, [] => [(start, L)]
  | start, s :: rest => (start, s) :: driverIntervalBounds cut L (s + cut) rest

/-- The validity condition of spec section 3 on the biological spike indices,
relative to a running start index: each interval is non-degenerate
(`start < spike`, which is what the assert of line 195 checks after the
spike-cut jump) and the trailing tail fits in the stimulus. -/
def validSpikes (cut L : ℕ) : ℕ → List ℕ → Bool
  | start, [] => start ≤ L
  | start, s :: rest => start < s && validSpikes cut L (s + cut) rest

/-- Source `run_with_biological_spikes` (lines 81-312).  The init check of
line 120 is faithful in its condition, but the raise at line 121 formats its
message with 2 conversions and 4 arguments, so Python raises TypeError while
building the GlifBadInitializationException; this exit is `typeError`. -/
def run_with_biological_spikes (nrn : Neuron) (D : Dyn)
    (stimulus response : List ℚ) (bio_spike_time_steps : List ℕ) :
    Except DErr SimOut :=
  let voltage_t0 := nrn.init_voltage
  let threshold_t0 := nrn.init_threshold
  let AScurrents_t0 := nrn.init_AScurrents
  if vGT voltage_t0 threshold_t0 then .error .typeError
  else
    let num_spikes := bio_spike_time_steps.length
    if num_spikes = 0 then
      match run_until_biological_spike nrn D voltage_t0 threshold_t0 AScurrents_t0
          stimulus response 0 stimulus.length bio_spike_time_steps with
      | (.error (.invalidState _ _ _), _) => .error .unboundLocal
      | (.error .otherError, _) => .error .otherError
      | (.ok rd, _) =>
          let out : SimOut :=
            ⟨rd.voltage, rd.threshold, rd.AScurrent_matrix, [], [], [], [], [], [], [], []⟩
          if out.interpolated_model_spike_times.length ≠ num_spikes ∨
             out.grid_model_spike_times.length ≠ num_spikes ∨
             out.grid_ISI.length ≠ num_spikes ∨
             out.interpolated_ISI.length ≠ num_spikes ∨
             out.grid_bio_spike_model_voltage.length ≠ num_spikes ∨
             out.grid_bio_spike_model_threshold.length ≠ num_spikes
          then .error .numSpikesMismatch
          else .ok out
    else
      let acc0 : SimOut :=
        ⟨List.replicate stimulus.length none,
         List.replicate stimulus.length none,
         List.replicate stimulus.length (List.replicate AScurrents_t0.length none),
         List.replicate num_spikes none, List.replicate num_spikes none,
         List.replicate num_spikes none, List.replicate num_spikes none,
         List.replicate num_spikes none, List.replicate num_spikes none,
         List.replicate num_spikes none, List.replicate num_spikes none⟩
      match driverLoop nrn D stimulus response bio_spike_time_steps
          bio_spike_time_steps 0 0 0 (voltage_t0, threshold_t0, AScurrents_t0) acc0 with
      | .error e => .error e
      | .ok (acc, start_index, last_end, st) =>
          match run_until_biological_spike nrn D st.1 st.2.1 st.2.2 stimulus response
              start_index stimulus.length bio_spike_time_steps with
          | (.error (.invalidState pv pth pam), _) =>
              match spliceTraj acc start_index last_end pv pth pam with
              | none => .error .broadcastError
              | some acc2 => .error (.glifNeuron acc2)
          | (.error .otherError, _) => .error .otherError
          | (.ok rd, _) =>
              match spliceTraj acc start_index stimulus.length rd.voltage rd.threshold
                  rd.AScurrent_matrix with
              | none => .error .broadcastError
              | some acc2 =>
                  if acc2.interpolated_model_spike_times.length ≠ num_spikes ∨
                     acc2.grid_model_spike_times.length ≠ num_spikes ∨
                     acc2.grid_ISI.length ≠ num_spikes ∨
                     acc2.interpolated_ISI.length ≠ num_spikes ∨
                     acc2.grid_bio_spike_model_voltage.length ≠ num_spikes ∨
                     acc2.grid_bio_spike_model_threshold.length ≠ num_spikes
                  then .error .numSpikesMismatch
                  else .ok acc2

/-- Direct fine-resolution step-by-step simulation of an interval starting
at `start`: the state before fine step `t`, every dynamics call made with
the full step size `dt` and the single fine-grid stimulus sample.  This is
the reference side of the refinement property of spec section 8, written
from the words of the spec. -/
def directPre (D : Dyn) (stimulus : List ℚ) (spikes : List ℕ) (start : ℕ) (dt : ℚ)
    (st0 : V × V × List V) : ℕ → V × V × List V
  | 0 => st0
  | t + 1 =>
      let st := directPre D stimulus spikes start dt st0 t
      D.dyn st.1 st.2.1 st.2.2 (some (stimulus.getD (t + start) 0)) (t + start) spikes dt

/-- The finiteness check on a bundled state triple. -/
def stFin (st : V × V × List V) : Bool := stateFinite st.1 st.2.1 st.2.2

/-- The coarse voltage buffer after `n` recorded loop steps. -/
def coarseV (ctx : LoopCtx) (st0 : V × V × List V) (n : ℕ) : List V :=
  (List.range n).map (fun t => (loopPre ctx st0 t).1)

/-- The coarse threshold buffer after `n` recorded loop steps. -/
def coarseTh (ctx : LoopCtx) (st0 : V × V × List V) (n : ℕ) : List V :=
  (List.range n).map (fun t => (loopPre ctx st0 t).2.1)

/-- The coarse after-spike-current buffer after `n` recorded loop steps. -/
def coarseA (ctx : LoopCtx) (st0 : V × V × List V) (n : ℕ) : List (List V) :=
  (List.range n).map (fun t => (loopPre ctx st0 t).2.2)

/-- Whether an integrator outcome is a normal return. -/
def isOk : Except IErr RunData → Bool
  | .ok _ => true
  | _ => false

/-- Whether an integrator outcome is the invalid-state failure kind
(GlifNeuronException). -/
def isInvalidState : Except IErr RunData → Bool
  | .error (.invalidState _ _ _) => true
  | _ => false

/-- The payload of the driver-level GlifNeuronException re-raise, when the
driver outcome is that failure kind. -/
def glifPayload : Except DErr SimOut → Option SimOut
  | .error (.glifNeuron out) => some out
  | _ => none

/-- Whether a driver outcome is the UnboundLocalError of the
zero-biological-spike failure path. -/
def isUnboundLocal : Except DErr SimOut → Bool
  | .error .unboundLocal => true
  | _ => false

/-- Test dynamics: constant next state, insensitive to every argument. -/
def dynConst : Dyn :=
  ⟨fun _ _ _ _ _ _ _ => (some 1, some 2, []),
   fun _ _ asc => (some 0, some 1, asc, false)⟩

/-- Test dynamics: adds the active dt to the voltage, so the outcome of a
call depends on the step size it was made with. -/
def dynAddDt : Dyn :=
  ⟨fun v _ asc _ _ _ dt => (vAdd v (some dt), some 2, asc),
   fun _ _ asc => (some 0, some 1, asc, false)⟩

/-- Test dynamics: the voltage becomes non-finite right after the call at
global step 1, so the state entering coarse step 2 is non-finite. -/
def dynNan1 : Dyn :=
  ⟨fun _ th asc _ step _ _ => (if step = 1 then none else some 0, th, asc),
   fun _ _ asc => (some 5, some 6, asc, false)⟩

/-- Test neuron: unit dt, refinement factor 1, no spike cut. -/
def nrnM1 : Neuron :=
  ⟨1, 1, 0, some 0, some 1, [], 1, false, false, true⟩

/-- Test neuron: unit dt, refinement factor 2, no spike cut. -/
def nrnM2 : Neuron :=
  ⟨1, 2, 0, some 0, some 1, [], 1, false, false, true⟩

/-- Test neuron with initial voltage above initial threshold. -/
def nrnBadInit : Neuron :=
  ⟨1, 1, 0, some 1, some 0, [], 1, false, false, true⟩

/-- The "complete, correctly-shaped payload" property of spec section 9:
the three trajectory arrays have the stimulus length and the eight per-spike
arrays have one slot per biological spike. -/
def simOutShape (L n : ℕ) (out : SimOut) : Prop :=
  out.voltage.length = L ∧ out.threshold.length = L ∧
  out.AScurrent_matrix.length = L ∧
  out.grid_ISI.length = n ∧ out.interpolated_ISI.length = n ∧
  out.grid_model_spike_times.length = n ∧
  out.interpolated_model_spike_times.length = n ∧
  out.grid_model_spike_voltages.length = n ∧
  out.interpolated_model_spike_voltages.length = n ∧
  out.grid_bio_spike_model_voltage.length = n ∧
  out.grid_bio_spike_model_threshold.length = n

/-- Shape invariant carried by a driver-loop outcome: the accumulator of a
normal exit and the payload of a GlifNeuronException exit are both
correctly shaped; the other failure kinds carry no output structure. -/
def driverOutShape (L n : ℕ) :
    Except DErr (SimOut × ℕ × ℕ × (V × V × List V)) → Prop
  | .error (.glifNeuron out) => simOutShape L n out
  | .ok (acc, _, _, _) => simOutShape L n acc
  | _ => True

theorem lem_firstCrossAux_some :
    ∀ (v th : List V) (t i : ℕ), t < v.length → t < th.length →
      vGT (v.getD t none) (th.getD t none) = true →
      (∀ s, s < t → vGT (v.getD s none) (th.getD s none) = false) →
      firstCrossAux v th i = some (i + t)
  | [], _, t, _, ht, _, _, _ => absurd ht (by simp)
  | _ :: _, [], t, _, _, ht2, _, _ => absurd ht2 (by simp)
  | a :: vs, b :: ths, 0, i, _, _, hc, _ => by
      simp only [List.getD_cons_zero] at hc
      simp [firstCrossAux, hc]
  | a :: vs, b :: ths, t + 1, i, ht, ht2, hc, hmin => by
      have h0 : vGT a b = false := by
        have h := hmin 0 (Nat.succ_pos t)
        simpa using h
      have hrec := lem_firstCrossAux_some vs ths t (i + 1)
        (by simpa using ht) (by simpa using ht2)
        (by simpa using hc)
        (fun s hs => by
          have h := hmin (s + 1) (by omega)
          simpa using h)
      simp only [firstCrossAux, h0, Bool.false_eq_true, if_false, hrec]
      congr 1
      omega

theorem lem_firstCrossAux_none :
    ∀ (v th : List V) (i : ℕ),
      (∀ s, s < v.length → s < th.length →
        vGT (v.getD s none) (th.getD s none) = false) →
      firstCrossAux v th i = none
  | [], th, i, _ => by cases th <;> rfl
  | _ :: _, [], i, _ => rfl
  | a :: vs, b :: ths, i, hall => by
      have h0 : vGT a b = false := by
        have h := hall 0 (by simp) (by simp)
        simpa using h
      have hrec := lem_firstCrossAux_none vs ths (i + 1)
        (fun s h1 h2 => by
          have h := hall (s + 1) (by simpa using h1) (by simpa using h2)
          simpa using h)
      simp [firstCrossAux, h0, hrec]

theorem lem_getD_map_some (l : List ℚ) (t : ℕ) (ht : t < l.length) :
    (l.map some).getD t none = some (l.getD t 0) := by
  rw [List.getD_eq_getElem?_getD, List.getD_eq_getElem?_getD, List.getElem?_map,
    List.getElem?_eq_getElem ht]
  rfl

theorem lem_getD_last (l : List ℚ) (d : ℚ) (h : l ≠ []) :
    l.getD (l.length - 1) d = l.getLast h := by
  have hlt : l.length - 1 < l.length := by
    have : 0 < l.length := List.length_pos.mpr h
    omega
  rw [List.getD_eq_getElem?_getD, List.getElem?_eq_getElem hlt,
    List.getLast_eq_getElem]
  rfl

theorem lem_pyIdx_nat (l : List ℚ) (t : ℕ) (ht : t < l.length) :
    pyIdx (l.map some) (t : ℤ) = some (l.getD t 0) := by
  rw [pyIdx, if_neg (by omega)]
  rw [Int.toNat_natCast]
  exact lem_getD_map_some l t ht

theorem lem_pyIdx_neg_one (l : List ℚ) (h : l ≠ []) :
    pyIdx (l.map some) (-1) = some (l.getLast h) := by
  have hpos : 0 < l.length := List.length_pos.mpr h
  rw [pyIdx, if_pos (by omega)]
  have h1 : ((-(-1 : ℤ)).toNat) = 1 := rfl
  rw [h1, if_pos (by simpa using hpos)]
  have h2 : (l.map some).length - 1 = l.length - 1 := by simp
  rw [h2, lem_getD_map_some l (l.length - 1) (by omega), lem_getD_last l 0 h]

theorem lem_ffms_hit (voltage threshold : List V) (v1 th1 : V) (dt : ℚ) (t : ℕ)
    (h : firstCrossIdx voltage threshold = some t) :
    find_first_model_spike voltage threshold v1 th1 dt =
      some (some (dt * ((t : ℤ) - 1 : ℤ)),
            pyIdx voltage ((t : ℤ) - 1),
            interpolate_spike_time dt ((t : ℤ) - 1)
              (pyIdx threshold ((t : ℤ) - 1)) (pyIdx threshold (t : ℤ))
              (pyIdx voltage ((t : ℤ) - 1)) (pyIdx voltage (t : ℤ)),
            interpolate_spike_voltage dt ((t : ℤ) - 1)
              (pyIdx threshold ((t : ℤ) - 1)) (pyIdx threshold (t : ℤ))
              (pyIdx voltage ((t : ℤ) - 1)) (pyIdx voltage (t : ℤ))) := by
  unfold find_first_model_spike
  rw [h]

theorem lem_ffms_boundary (voltage threshold : List V) (v1 th1 : V) (dt : ℚ)
    (h : firstCrossIdx voltage threshold = none) (hg : vGT v1 th1 = true) :
    find_first_model_spike voltage threshold v1 th1 dt =
      some (some (dt * ((voltage.length : ℤ) - 1 : ℤ)),
            v1,
            interpolate_spike_time dt ((voltage.length : ℤ) - 1)
              (pyIdx threshold ((voltage.length : ℤ) - 1)) th1
              (pyIdx voltage ((voltage.length : ℤ) - 1)) v1,
            interpolate_spike_voltage dt (voltage.length : ℤ)
              (pyIdx threshold (-1)) th1
              (pyIdx voltage (-1)) v1) := by
  unfold find_first_model_spike
  rw [h]
  simp only [hg, if_true]

theorem lem_ffms_none (voltage threshold : List V) (v1 th1 : V) (dt : ℚ)
    (h : firstCrossIdx voltage threshold = none) (hg : vGT v1 th1 = false) :
    find_first_model_spike voltage threshold v1 th1 dt = none := by
  unfold find_first_model_spike
  rw [h]
  simp only [hg, Bool.false_eq_true, if_false]

theorem lem_firstCrossIdx_map_some (vq thq : List ℚ) (t : ℕ)
    (hlen : vq.length = thq.length) (ht : t < vq.length)
    (hcross : thq.getD t 0 < vq.getD t 0)
    (hmin : ∀ s, s < t → ¬ thq.getD s 0 < vq.getD s 0) :
    firstCrossIdx (vq.map some) (thq.map some) = some t := by
  have h := lem_firstCrossAux_some (vq.map some) (thq.map some) t 0
    (by simpa using ht) (by simp only [List.length_map]; omega)
    (by
      rw [lem_getD_map_some vq t ht, lem_getD_map_some thq t (by omega)]
      exact decide_eq_true hcross)
    (fun s hs => by
      rw [lem_getD_map_some vq s (by omega), lem_getD_map_some thq s (by omega)]
      exact decide_eq_false (hmin s hs))
  simpa [firstCrossIdx] using h

theorem lem_firstCrossIdx_map_none (vq thq : List ℚ)
    (hlen : vq.length = thq.length)
    (hall : ∀ t, t < vq.length → ¬ thq.getD t 0 < vq.getD t 0) :
    firstCrossIdx (vq.map some) (thq.map some) = none := by
  have h := lem_firstCrossAux_none (vq.map some) (thq.map some) 0
    (fun s h1 h2 => by
      rw [lem_getD_map_some vq s (by simpa using h1),
        lem_getD_map_some thq s (by simpa using h2)]
      exact decide_eq_false (hall s (by simpa using h1)))
  simpa [firstCrossIdx] using h

/-- C3. `find_first_model_spike`, over finite trajectories of equal length:
at the earliest index `t` where voltage strictly exceeds threshold it
returns grid time `dt*(t-1)`, grid voltage `voltage[t-1]`, and interpolated
time/voltage computed from the pair `(t-1, t)`; if no interior index crosses
but the one-past-end pair does, that boundary pair is used; and if neither
crosses it returns the all-None result without raising.  In particular it
never reports a crossing at an index where voltage does not exceed
threshold. -/
theorem c3_find_first_crossing
    (vq thq : List ℚ) (vnext thnext dtq : ℚ)
    (hlen : vq.length = thq.length) (hne : vq ≠ []) (hthne : thq ≠ []) :
    (∀ t, t < vq.length → thq.getD t 0 < vq.getD t 0 →
      (∀ s, s < t → ¬ thq.getD s 0 < vq.getD s 0) →
      find_first_model_spike (vq.map some) (thq.map some) (some vnext) (some thnext) dtq =
        some (some (dtq * ((t : ℤ) - 1 : ℤ)),
              pyIdx (vq.map some) ((t : ℤ) - 1),
              interpolate_spike_time dtq ((t : ℤ) - 1)
                (pyIdx (thq.map some) ((t : ℤ) - 1)) (some (thq.getD t 0))
                (pyIdx (vq.map some) ((t : ℤ) - 1)) (some (vq.getD t 0)),
              interpolate_spike_voltage dtq ((t : ℤ) - 1)
                (pyIdx (thq.map some) ((t : ℤ) - 1)) (some (thq.getD t 0))
                (pyIdx (vq.map some) ((t : ℤ) - 1)) (some (vq.getD t 0)))) ∧
    ((∀ t, t < vq.length → ¬ thq.getD t 0 < vq.getD t 0) → thnext < vnext →
      find_first_model_spike (vq.map some) (thq.map some) (some vnext) (some thnext) dtq =
        some (some (dtq * ((vq.length : ℤ) - 1 : ℤ)),
              some vnext,
              interpolate_spike_time dtq ((vq.length : ℤ) - 1)
                (some (thq.getLast hthne)) (some thnext)
                (some (vq.getLast hne)) (some vnext),
              interpolate_spike_voltage dtq (vq.length : ℤ)
                (some (thq.getLast hthne)) (some thnext)
                (some (vq.getLast hne)) (some vnext))) ∧
    ((∀ t, t < vq.length → ¬ thq.getD t 0 < vq.getD t 0) → ¬ thnext < vnext →
      find_first_model_spike (vq.map some) (thq.map some) (some vnext) (some thnext) dtq =
        none) := by
  have hposv : 0 < vq.length := List.length_pos.mpr hne
  refine ⟨?_, ?_, ?_⟩
  · intro t ht hcross hmin
    rw [lem_ffms_hit _ _ _ _ _ t (lem_firstCrossIdx_map_some vq thq t hlen ht hcross hmin)]
    rw [lem_pyIdx_nat vq t ht, lem_pyIdx_nat thq t (by omega)]
  · intro hall hnext
    rw [lem_ffms_boundary _ _ _ _ _ (lem_firstCrossIdx_map_none vq thq hlen hall)
      (show vGT (some vnext) (some thnext) = true from decide_eq_true hnext)]
    rw [List.length_map]
    have hc1 : ((vq.length : ℤ) - 1) = (((vq.length - 1 : ℕ)) : ℤ) := by omega
    rw [hc1, lem_pyIdx_nat vq (vq.length - 1) (by omega),
      lem_pyIdx_nat thq (vq.length - 1) (by omega),
      lem_pyIdx_neg_one vq hne, lem_pyIdx_neg_one thq hthne,
      lem_getD_last vq 0 hne]
    have hgl : thq.getD (vq.length - 1) 0 = thq.getLast hthne := by
      rw [hlen, lem_getD_last thq 0 hthne]
    rw [hgl]
  · intro hall hnext
    exact lem_ffms_none _ _ _ _ _ (lem_firstCrossIdx_map_none vq thq hlen hall)
      (show vGT (some vnext) (some thnext) = false from decide_eq_false hnext)

/-- Witness for C3: on voltage `[0, 2]` against threshold `[1, 1]` with unit
dt, the first crossing is at index 1 and the reported values come from the
pair `(0, 1)`: grid time 0, grid voltage 0, interpolated time one half,
interpolated voltage 1. -/
theorem c3_find_first_crossing_witness :
    find_first_model_spike [some 0, some 2] [some 1, some 1] (some 0) (some 1) 1 =
      some (some 0, some 0, some (1 / 2), some 1) := by
  have h := (c3_find_first_crossing [0, 2] [1, 1] 0 1 1 (by decide) (by decide)
    (by decide)).1 1 (by decide) (by decide) (fun s hs => by interval_cases s; decide)
  refine h.trans ?_
  norm_num [pyIdx, interpolate_spike_time, interpolate_spike_voltage, line_crossing_x,
    line_crossing_y, vAdd, vMul, vSub, vDiv, vCeil]

/-- C9. When the very first sample already exceeds threshold, the scan hits
`t = 0`, so the Python indices `t-1 = -1` wrap to the end of the arrays: the
grid spike time is `-dt` (before the interval start) and the grid spike
voltage is the last element of the voltage trajectory, with interpolation
computed from the wrapped pair `(voltage[-1], voltage[0])`. -/
theorem c9_first_sample_crossing
    (vq thq : List ℚ) (v1 th1 : V) (dtq : ℚ)
    (hlen : vq.length = thq.length) (hne : vq ≠ []) (hthne : thq ≠ [])
    (h0 : thq.getD 0 0 < vq.getD 0 0) :
    find_first_model_spike (vq.map some) (thq.map some) v1 th1 dtq =
      some (some (-dtq),
            some (vq.getLast hne),
            interpolate_spike_time dtq (-1)
              (some (thq.getLast hthne)) (some (thq.getD 0 0))
              (some (vq.getLast hne)) (some (vq.getD 0 0)),
            interpolate_spike_voltage dtq (-1)
              (some (thq.getLast hthne)) (some (thq.getD 0 0))
              (some (vq.getLast hne)) (some (vq.getD 0 0))) := by
  have hposv : 0 < vq.length := List.length_pos.mpr hne
  rw [lem_ffms_hit _ _ _ _ _ 0
    (lem_firstCrossIdx_map_some vq thq 0 hlen hposv h0 (fun s hs => absurd hs (by omega)))]
  have hm1 : ((0 : ℕ) : ℤ) - 1 = -1 := by decide
  rw [hm1, lem_pyIdx_neg_one vq hne, lem_pyIdx_neg_one thq hthne,
    lem_pyIdx_nat vq 0 hposv, lem_pyIdx_nat thq 0 (by omega)]
  rw [show (((-1 : ℤ)) : ℚ) = -1 from by norm_num, mul_neg_one]

/-- Witness for C9: voltage `[5, 1]` against threshold `[3, 2]` with
`dt = 2`: the first sample crosses, the grid time is `-2` and the grid
voltage is the trailing element `1`, with interpolation from the wrapped
pair. -/
theorem c9_first_sample_crossing_witness :
    find_first_model_spike [some 5, some 1] [some 3, some 2] (some 0) (some 9) 2 =
      some (some (-2), some 1, some (-4 / 3), some (1 / 3)) := by
  have h := c9_first_sample_crossing [5, 1] [3, 2] (some 0) (some 9) 2
    (by decide) (by decide) (by decide) (by decide)
  refine h.trans ?_
  norm_num [interpolate_spike_time, interpolate_spike_voltage, line_crossing_x,
    line_crossing_y, vAdd, vMul, vSub, vDiv]

instance instDecEqExcept {ε α : Type} [DecidableEq ε] [DecidableEq α] :
    DecidableEq (Except ε α) := fun x y =>
  match x, y with
  | .ok a, .ok b =>
      if h : a = b then isTrue (by rw [h]) else isFalse (by intro hc; cases hc; exact h rfl)
  | .error a, .error b =>
      if h : a = b then isTrue (by rw [h]) else isFalse (by intro hc; cases hc; exact h rfl)
  | .ok _, .error _ => isFalse (by intro hc; cases hc)
  | .error _, .ok _ => isFalse (by intro hc; cases hc)

theorem lem_lcx_some (dt v0 v1 th0 th1 : ℚ)
    (hden : (v1 - v0) - (th1 - th0) ≠ 0) :
    line_crossing_x dt (some v0) (some v1) (some th0) (some th1) =
      some (dt * (th0 - v0) / ((v1 - v0) - (th1 - th0))) := by
  simp [line_crossing_x, vDiv, vMul, vSub, hden]

theorem lem_lcy_some (dt v0 v1 th0 th1 : ℚ)
    (hden : (v1 - v0) - (th1 - th0) ≠ 0) (hdt : dt ≠ 0) :
    line_crossing_y dt (some v0) (some v1) (some th0) (some th1) =
      some (v0 + (v1 - v0) * (dt * (th0 - v0) / ((v1 - v0) - (th1 - th0))) / dt) := by
  rw [line_crossing_y, lem_lcx_some dt v0 v1 th0 th1 hden]
  simp [vAdd, vMul, vDiv, vSub, hdt]

/-- C5. `extrapolate_model_spike_from_endpoints` on non-empty finite
trajectories: writing `T` for the returned interpolated spike time and `Y`
for the returned voltage, the result is exactly
`(ceil(T/dt)*dt, Y, T, Y)` — grid time is the interpolated time rounded up
to the next multiple of `dt` and grid voltage is the non-rounded
extrapolated voltage — and `(T, Y)` is the intersection of the straight
line through the first voltage sample and the one-past-end voltage sample
with the straight line through the corresponding threshold samples, both
parameterised over the span `dt * num_time_steps`. -/
theorem c5_extrapolate_endpoints
    (vq thq : List ℚ) (v1 th1 dtq : ℚ)
    (hne : vq ≠ []) (hthne : thq ≠ []) (hdt : dtq ≠ 0)
    (hden : (v1 - vq.getD 0 0) - (th1 - thq.getD 0 0) ≠ 0) :
    ∃ T Y : ℚ,
      extrapolate_model_spike_from_endpoints (vq.map some) (thq.map some)
          (some v1) (some th1) dtq =
        (some ((⌈T / dtq⌉ : ℚ) * dtq), some Y, some T, some Y) ∧
      vq.getD 0 0 + (v1 - vq.getD 0 0) * (T / (dtq * vq.length)) = Y ∧
      thq.getD 0 0 + (th1 - thq.getD 0 0) * (T / (dtq * vq.length)) = Y := by
  have hpos : 0 < vq.length := List.length_pos.mpr hne
  have hthpos : 0 < thq.length := List.length_pos.mpr hthne
  have hn0 : ((vq.length : ℚ)) ≠ 0 := Nat.cast_ne_zero.mpr (by omega)
  have hdn : dtq * (vq.length : ℚ) ≠ 0 := mul_ne_zero hdt hn0
  refine ⟨dtq * (vq.length : ℚ) * (thq.getD 0 0 - vq.getD 0 0) /
            ((v1 - vq.getD 0 0) - (th1 - thq.getD 0 0)),
          vq.getD 0 0 + (v1 - vq.getD 0 0) *
            (dtq * (vq.length : ℚ) * (thq.getD 0 0 - vq.getD 0 0) /
              ((v1 - vq.getD 0 0) - (th1 - thq.getD 0 0))) / (dtq * (vq.length : ℚ)),
          ?_, ?_, ?_⟩
  · simp only [extrapolate_model_spike_from_endpoints, extrapolate_spike_time,
      extrapolate_spike_voltage, List.length_map]
    rw [lem_getD_map_some vq 0 hpos, lem_getD_map_some thq 0 hthpos,
      lem_lcx_some _ _ _ _ _ hden, lem_lcy_some _ _ _ _ _ hden hdn]
    simp [vDiv, vCeil, vMul, hdt]
  · field_simp
  · have hs : dtq * (vq.length : ℚ) * (thq.getD 0 0 - vq.getD 0 0) /
        (v1 - vq.getD 0 0 - (th1 - thq.getD 0 0)) / (dtq * (vq.length : ℚ)) =
        (thq.getD 0 0 - vq.getD 0 0) / (v1 - vq.getD 0 0 - (th1 - thq.getD 0 0)) := by
      rw [div_div,
        mul_comm (v1 - vq.getD 0 0 - (th1 - thq.getD 0 0)) (dtq * (vq.length : ℚ)),
        mul_div_mul_left _ _ hdn]
    rw [hs, mul_div_assoc (a := v1 - vq.getD 0 0), hs]
    have hms : (v1 - vq.getD 0 0 - (th1 - thq.getD 0 0)) *
        ((thq.getD 0 0 - vq.getD 0 0) / (v1 - vq.getD 0 0 - (th1 - thq.getD 0 0))) =
        thq.getD 0 0 - vq.getD 0 0 := by
      rw [← mul_div_assoc]
      exact mul_div_cancel_left₀ _ hden
    linear_combination -hms

/-- Witness for C5: a single-sample trajectory with voltage 0 and threshold
2, one-past-end voltage 3 and threshold 2, unit dt. -/
theorem c5_extrapolate_endpoints_witness :
    ∃ T Y : ℚ,
      extrapolate_model_spike_from_endpoints [some 0] [some 2] (some 3) (some 2) 1 =
        (some ((⌈T / 1⌉ : ℚ) * 1), some Y, some T, some Y) ∧
      (0 : ℚ) + (3 - 0) * (T / (1 * 1)) = Y ∧
      (2 : ℚ) + (2 - 2) * (T / (1 * 1)) = Y := by
  obtain ⟨T, Y, h1, h2, h3⟩ := c5_extrapolate_endpoints [0] [2] 3 2 1
    (by decide) (by decide) (by decide) (by decide)
  refine ⟨T, Y, h1, ?_, ?_⟩
  · norm_num at h2 ⊢
    linarith
  · norm_num at h3 ⊢
    linarith

/-- C6. `extrapolate_model_spike_from_endpoints_single_tau` equals
`extrapolate_model_spike_from_endpoints` applied to the trailing window of
the trajectory starting at index `max 0 (num_time_steps - floor(tau_m/dt))`;
when `floor(tau_m/dt)` samples fit, the window is exactly the last
`floor(tau_m/dt)` samples, and when the trajectory is shorter the window
starts at index 0 (the whole trajectory). -/
theorem c6_single_tau_window
    (tau_m dtq : ℚ) (voltage threshold : List V) (v1 th1 : V)
    (hk : 0 ≤ ⌊tau_m / dtq⌋) :
    extrapolate_model_spike_from_endpoints_single_tau tau_m voltage threshold v1 th1 dtq =
      extrapolate_model_spike_from_endpoints
        (voltage.drop (max 0 ((voltage.length : ℤ) - ⌊tau_m / dtq⌋)).toNat)
        (threshold.drop (max 0 ((voltage.length : ℤ) - ⌊tau_m / dtq⌋)).toNat)
        v1 th1 dtq ∧
    (⌊tau_m / dtq⌋.toNat ≤ voltage.length →
      (voltage.drop (max 0 ((voltage.length : ℤ) - ⌊tau_m / dtq⌋)).toNat).length =
        ⌊tau_m / dtq⌋.toNat) ∧
    (voltage.length ≤ ⌊tau_m / dtq⌋.toNat →
      (max 0 ((voltage.length : ℤ) - ⌊tau_m / dtq⌋)).toNat = 0) := by
  refine ⟨rfl, ?_, ?_⟩
  · intro h
    rw [List.length_drop]
    omega
  · intro h
    omega

/-- Witness for C6: a five-sample trajectory with `tau_m = 3` and unit dt:
the extrapolation window is the last three samples. -/
theorem c6_single_tau_window_witness :
    extrapolate_model_spike_from_endpoints_single_tau 3
        [some 1, some 2, some 3, some 4, some 5]
        [some 9, some 9, some 9, some 9, some 9] (some 9) (some 8) 1 =
      extrapolate_model_spike_from_endpoints [some 3, some 4, some 5]
        [some 9, some 9, some 9] (some 9) (some 8) 1 ∧
    (0 : ℤ) ≤ ⌊(3 : ℚ) / 1⌋ := by
  constructor
  · have h := (c6_single_tau_window 3 1 [some 1, some 2, some 3, some 4, some 5]
      [some 9, some 9, some 9, some 9, some 9] (some 9) (some 8) (by decide)).1
    refine h.trans ?_
    decide
  · decide

/-- C4 (code bug).  The init check of `run_with_biological_spikes` fires on
`init_voltage > init_threshold` before any simulation work, for every
dynamics and every input — but the exception the caller sees is a TypeError,
not the intended GlifBadInitializationException: the message of line 121 has
two percent-f conversions and a four-element argument tuple, so the percent
formatting raises before the exception object is built. -/
theorem c4_bad_init_exit (nrn : Neuron) (D : Dyn) (stimulus response : List ℚ)
    (spikes : List ℕ) (h : vGT nrn.init_voltage nrn.init_threshold = true) :
    run_with_biological_spikes nrn D stimulus response spikes = .error .typeError := by
  unfold run_with_biological_spikes
  simp only [h, if_true]

/-- Witness for C4: a neuron whose initial voltage 1 exceeds its initial
threshold 0 exits with the TypeError outcome on any stimulus. -/
theorem c4_bad_init_exit_witness :
    vGT nrnBadInit.init_voltage nrnBadInit.init_threshold = true ∧
    run_with_biological_spikes nrnBadInit dynConst [0, 0] [0, 0] [] =
      .error .typeError :=
  ⟨by decide, c4_bad_init_exit nrnBadInit dynConst [0, 0] [0, 0] [] (by decide)⟩

theorem lem_headD_getD {α : Type} (l : List α) (d : α) : l.headD d = l.getD 0 d := by
  cases l <;> rfl

theorem lem_getD_map_range {α : Type} (f : ℕ → α) (n i : ℕ) (h : i < n) (d : α) :
    ((List.range n).map f).getD i d = f i := by
  rw [List.getD_eq_getElem?_getD, List.getElem?_map, List.getElem?_range h]
  rfl

theorem lem_getD_append_left {α : Type} (l1 l2 : List α) (i : ℕ) (h : i < l1.length)
    (d : α) : (l1 ++ l2).getD i d = l1.getD i d := by
  rw [List.getD_eq_getElem?_getD, List.getD_eq_getElem?_getD, List.getElem?_append_left h]

theorem lem_getD_append_right {α : Type} (l1 l2 : List α) (i : ℕ) (h : l1.length ≤ i)
    (d : α) : (l1 ++ l2).getD i d = l2.getD (i - l1.length) d := by
  rw [List.getD_eq_getElem?_getD, List.getD_eq_getElem?_getD, List.getElem?_append_right h]

theorem lem_countP_range_lt (j n : ℕ) (h : j ≤ n) :
    (List.range n).countP (fun i => decide (i < j)) = j := by
  induction n with
  | zero => simp only [List.range_zero, List.countP_nil]; omega
  | succ n ih =>
      rw [List.range_succ, List.countP_append]
      by_cases hj : j ≤ n
      · rw [ih hj]
        simp [List.countP_cons, Nat.not_lt.mpr hj]
      · have hj2 : j = n + 1 := by omega
        subst hj2
        rw [List.countP_eq_length.mpr (fun a ha => by
          have := List.mem_range.mp ha
          simp only [decide_eq_true_eq]
          omega)]
        simp [List.length_range, List.countP_cons]

theorem lem_coarseV_succ (ctx : LoopCtx) (st0 : V × V × List V) (n : ℕ) :
    coarseV ctx st0 (n + 1) = coarseV ctx st0 n ++ [(loopPre ctx st0 n).1] := by
  simp [coarseV, List.range_succ]

theorem lem_coarseTh_succ (ctx : LoopCtx) (st0 : V × V × List V) (n : ℕ) :
    coarseTh ctx st0 (n + 1) = coarseTh ctx st0 n ++ [(loopPre ctx st0 n).2.1] := by
  simp [coarseTh, List.range_succ]

theorem lem_coarseA_succ (ctx : LoopCtx) (st0 : V × V × List V) (n : ℕ) :
    coarseA ctx st0 (n + 1) = coarseA ctx st0 n ++ [(loopPre ctx st0 n).2.2] := by
  simp [coarseA, List.range_succ]

theorem lem_integLoop_ok (ctx : LoopCtx) (st0 : V × V × List V) :
    ∀ (k a : ℕ) (d : ℚ),
      (∀ t, a ≤ t → t < a + k → stFin (loopPre ctx st0 t) = true) →
      integLoop ctx (List.range' a k) (loopPre ctx st0 a) d
        (coarseV ctx st0 a, coarseTh ctx st0 a, coarseA ctx st0 a) =
      .ok ((coarseV ctx st0 (a + k), coarseTh ctx st0 (a + k), coarseA ctx st0 (a + k)),
           loopPre ctx st0 (a + k)) := by
  intro k
  induction k with
  | zero =>
      intro a d h
      simp [integLoop]
  | succ k ih =>
      intro a d h
      rw [List.range'_succ]
      rcases hP : loopPre ctx st0 a with ⟨v, th, asc⟩
      have hfin : stateFinite v th asc = true := by
        have hx := h a (le_refl a) (by omega)
        rw [stFin, hP] at hx
        exact hx
      rw [integLoop, if_pos hfin]
      have hnext : ctx.D.dyn v th asc (ctx.stimulus_coarse.getD a none)
          (a + ctx.start_index) ctx.bio_spike_time_steps (ctx.dt_vector.getD a 0) =
          loopPre ctx st0 (a + 1) := by
        rw [loopPre, hP]
      have hbv : coarseV ctx st0 a ++ [v] = coarseV ctx st0 (a + 1) := by
        rw [lem_coarseV_succ, hP]
      have hbt : coarseTh ctx st0 a ++ [th] = coarseTh ctx st0 (a + 1) := by
        rw [lem_coarseTh_succ, hP]
      have hba : coarseA ctx st0 a ++ [asc] = coarseA ctx st0 (a + 1) := by
        rw [lem_coarseA_succ, hP]
      simp only [hnext, hbv, hbt, hba]
      have hk : a + (k + 1) = (a + 1) + k := by omega
      rw [hk]
      exact ih (a + 1) (ctx.dt_vector.getD a 0) (fun t h1 h2 => h t (by omega) (by omega))

theorem lem_run_until_eq_ok (nrn : Neuron) (D : Dyn) (v0 th0 : V) (asc0 : List V)
    (stimulus response : List ℚ) (a b : ℕ) (spikes : List ℕ)
    (hne : ¬ b - a = 0) (hm : ¬ nrn.dt_multiplier = 0)
    (hfin : ∀ t, t < (local_coarse_indicies (b - a) nrn.dt_multiplier).length - 1 →
      stFin (loopPre (integCtx nrn D stimulus a b spikes) (v0, th0, asc0) t) = true) :
    run_until_biological_spike nrn D v0 th0 asc0 stimulus response a b spikes =
      (.ok (runUntilSuccess nrn D (integCtx nrn D stimulus a b spikes) stimulus b spikes
            (coarseV (integCtx nrn D stimulus a b spikes) (v0, th0, asc0)
              ((local_coarse_indicies (b - a) nrn.dt_multiplier).length - 1))
            (coarseTh (integCtx nrn D stimulus a b spikes) (v0, th0, asc0)
              ((local_coarse_indicies (b - a) nrn.dt_multiplier).length - 1))
            (coarseA (integCtx nrn D stimulus a b spikes) (v0, th0, asc0)
              ((local_coarse_indicies (b - a) nrn.dt_multiplier).length - 1))
            (loopPre (integCtx nrn D stimulus a b spikes) (v0, th0, asc0)
              ((local_coarse_indicies (b - a) nrn.dt_multiplier).length - 1)).1
            (loopPre (integCtx nrn D stimulus a b spikes) (v0, th0, asc0)
              ((local_coarse_indicies (b - a) nrn.dt_multiplier).length - 1)).2.1
            (loopPre (integCtx nrn D stimulus a b spikes) (v0, th0, asc0)
              ((local_coarse_indicies (b - a) nrn.dt_multiplier).length - 1)).2.2),
       nrn.dt) := by
  have hloop := lem_integLoop_ok (integCtx nrn D stimulus a b spikes) (v0, th0, asc0)
    ((local_coarse_indicies (b - a) nrn.dt_multiplier).length - 1) 0
    (nrn.dt * nrn.dt_multiplier) (fun t h1 h2 => hfin t (by omega))
  have h00 : (coarseV (integCtx nrn D stimulus a b spikes) (v0, th0, asc0) 0,
      coarseTh (integCtx nrn D stimulus a b spikes) (v0, th0, asc0) 0,
      coarseA (integCtx nrn D stimulus a b spikes) (v0, th0, asc0) 0) =
      (([] : List V), ([] : List V), ([] : List (List V))) := rfl
  have h01 : loopPre (integCtx nrn D stimulus a b spikes) (v0, th0, asc0) 0 =
      (v0, th0, asc0) := rfl
  rw [h00, h01] at hloop
  rw [Nat.zero_add] at hloop
  rcases hT : loopPre (integCtx nrn D stimulus a b spikes) (v0, th0, asc0)
      ((local_coarse_indicies (b - a) nrn.dt_multiplier).length - 1) with ⟨pv, pth, pasc⟩
  rw [hT] at hloop
  simp only [run_until_biological_spike]
  rw [if_neg hne, if_neg hm, List.range_eq_range', hloop]

/-- C7 (amended).  On every normal return of `run_until_biological_spike`
the shared step size is restored: the second component of the result, the
value of `self.dt` after the call, equals its value at entry.  (The original
claim also asserted this for the invalid-state failure exit; the
counterexample below refutes that part: on that path `self.dt` stays at the
coarse value set inside the loop.) -/
theorem c7_dt_restored_on_success (nrn : Neuron) (D : Dyn) (v0 th0 : V)
    (asc0 : List V) (stimulus response : List ℚ) (a b : ℕ) (spikes : List ℕ)
    (rd : RunData)
    (h : (run_until_biological_spike nrn D v0 th0 asc0 stimulus response a b spikes).1 =
      .ok rd) :
    (run_until_biological_spike nrn D v0 th0 asc0 stimulus response a b spikes).2 =
      nrn.dt := by
  by_cases h1 : b - a = 0
  · exfalso
    simp only [run_until_biological_spike] at h
    rw [if_pos h1] at h
    exact absurd h (by simp)
  · by_cases h2 : nrn.dt_multiplier = 0
    · exfalso
      simp only [run_until_biological_spike] at h
      rw [if_neg h1, if_pos h2] at h
      exact absurd h (by simp)
    · simp only [run_until_biological_spike] at h ⊢
      rw [if_neg h1, if_neg h2] at h ⊢
      rcases hE : integLoop (integCtx nrn D stimulus a b spikes)
          (List.range ((local_coarse_indicies (b - a) nrn.dt_multiplier).length - 1))
          (v0, th0, asc0) (nrn.dt * nrn.dt_multiplier) ([], [], []) with ep | okp
      · exfalso
        rcases ep with ⟨e, d⟩
        rw [hE] at h
        exact absurd h (by simp)
      · rcases okp with ⟨⟨vb, thb, ab⟩, pv, pth, pasc⟩
        rfl

/-- Witness for C7: a concrete two-step interval with refinement factor 1
returns normally and the neuron dt after the call equals the entry dt. -/
theorem c7_dt_restored_on_success_witness :
    isOk (run_until_biological_spike nrnM1 dynConst (some 0) (some 3) [] [0, 0] [0, 0]
      0 2 []).1 = true ∧
    (run_until_biological_spike nrnM1 dynConst (some 0) (some 3) [] [0, 0] [0, 0]
      0 2 []).2 = nrnM1.dt := by
  have hok : isOk (run_until_biological_spike nrnM1 dynConst (some 0) (some 3) [] [0, 0]
      [0, 0] 0 2 []).1 = true := by decide
  refine ⟨hok, ?_⟩
  rcases hE : (run_until_biological_spike nrnM1 dynConst (some 0) (some 3) [] [0, 0] [0, 0]
      0 2 []).1 with e | rd
  · rw [hE] at hok
    simp [isOk] at hok
  · exact c7_dt_restored_on_success nrnM1 dynConst (some 0) (some 3) [] [0, 0] [0, 0]
      0 2 [] rd hE

/-- Counterexample for C7 as stated: a refinement-factor-2 interval that hits
the invalid-state failure at coarse step 2 exits through the failure path
with `self.dt` equal to 2, twice its entry value of 1 — the transient
override is not restored on the invalid-state exit. -/
theorem c7_dt_not_restored_on_failure :
    isInvalidState (run_until_biological_spike nrnM2 dynNan1 (some 0) (some 1) []
      [0, 0, 0, 0, 0] [0, 0, 0, 0, 0] 0 5 []).1 = true ∧
    (run_until_biological_spike nrnM2 dynNan1 (some 0) (some 1) []
      [0, 0, 0, 0, 0] [0, 0, 0, 0, 0] 0 5 []).2 = 2 ∧
    nrnM2.dt = 1 := by
  refine ⟨by decide, by decide, by decide⟩

theorem lem_strided_one (n : ℕ) : strided n 1 = List.range n := by
  simp [strided, Nat.mod_one]

theorem lem_lci_one (n : ℕ) : local_coarse_indicies n 1 = List.range n ++ [n] := by
  rw [local_coarse_indicies, lem_strided_one]

theorem lem_lci_one_len (n : ℕ) : (local_coarse_indicies n 1).length = n + 1 := by
  simp [lem_lci_one]

theorem lem_getLastD_map_range {α : Type} (f : ℕ → α) (n : ℕ) (h : 0 < n) (d : α) :
    ((List.range n).map f).getLastD d = f (n - 1) := by
  obtain ⟨m, rfl⟩ : ∃ m, n = m + 1 := ⟨n - 1, by omega⟩
  rw [List.range_succ, List.map_append]
  simp

theorem lem_sliceMean_single (stim : List ℚ) (i : ℕ) (h : i < stim.length) :
    sliceMean stim i (i + 1) = some (stim.getD i 0) := by
  have hdrop : (stim.drop i).take (i + 1 - i) = [stim.getD i 0] := by
    have h1 : i + 1 - i = 1 := by omega
    rw [h1]
    have hlen : 0 < (stim.drop i).length := by
      rw [List.length_drop]
      omega
    cases hd : stim.drop i with
    | nil => rw [hd] at hlen; simp at hlen
    | cons x xs =>
        have hx : x = stim.getD i 0 := by
          have h0 : (stim.drop i).getD 0 0 = stim.getD i 0 := by
            rw [List.getD_eq_getElem?_getD, List.getD_eq_getElem?_getD,
              List.getElem?_drop, Nat.add_zero]
          rw [hd] at h0
          simpa using h0
        simp [hx]
  rw [sliceMean, hdrop]
  norm_num

theorem lem_all_getD_isSome (l : List V) (h : l.all vFinite = true) (i : ℕ)
    (hi : i < l.length) : (l.getD i none).isSome = true := by
  have hmem : l.getD i none ∈ l := by
    rw [List.getD_eq_getElem?_getD, List.getElem?_eq_getElem hi]
    exact List.getElem_mem hi
  exact List.all_eq_true.mp h _ hmem

theorem lem_map_range_getD {α : Type} (l : List α) (d : α) :
    (List.range l.length).map (fun i => l.getD i d) = l := by
  apply List.ext_getElem
  · simp
  · intro i h1 h2
    simp only [List.getElem_map, List.getElem_range]
    rw [List.getD_eq_getElem?_getD, List.getElem?_eq_getElem h2]
    rfl

theorem lem_vAdd_some (a b : ℚ) : vAdd (some a) (some b) = some (a + b) := rfl

theorem lem_vSub_some (a b : ℚ) : vSub (some a) (some b) = some (a - b) := rfl

theorem lem_vMul_some (a b : ℚ) : vMul (some a) (some b) = some (a * b) := rfl

theorem lem_vDiv_some (a b : ℚ) (h : b ≠ 0) :
    vDiv (some a) (some b) = some (a / b) := by
  simp [vDiv, h]

theorem lem_interp_node_m1 (n : ℕ) (hn : 2 ≤ n) (dt0 : ℚ) (hdt : 0 < dt0)
    (ys : List V) (hlen : ys.length = n + 1)
    (hfin : ∀ i, i < n → (ys.getD i none).isSome = true)
    (fill : V) (j : ℕ) (hj : j < n) :
    interpEval ((List.range n).map (fun i : ℕ => (i : ℚ) * dt0) ++ [((n - 1 : ℕ) : ℚ) * dt0])
      ys fill ((j : ℚ) * dt0) = ys.getD j none := by
  set xs := (List.range n).map (fun i : ℕ => (i : ℚ) * dt0) ++ [((n - 1 : ℕ) : ℚ) * dt0]
    with hxs
  have hmaplen : ((List.range n).map (fun i : ℕ => (i : ℚ) * dt0)).length = n := by simp
  have hxslen : xs.length = n + 1 := by simp [hxs]
  have hxsget : ∀ i, i < n → xs.getD i 0 = (i : ℚ) * dt0 := by
    intro i hi
    rw [hxs, lem_getD_append_left _ _ i (by rw [hmaplen]; omega) 0,
      lem_getD_map_range _ _ _ hi]
  have hhead : xs.headD 0 = 0 := by
    rw [lem_headD_getD, hxsget 0 (by omega)]
    norm_num
  have hlast : xs.getLastD 0 = ((n - 1 : ℕ) : ℚ) * dt0 := List.getLastD_concat _ _ _
  have hjn1 : (j : ℚ) ≤ ((n - 1 : ℕ) : ℚ) := by
    have : j ≤ n - 1 := by omega
    exact_mod_cast this
  have hnotor : ¬ ((j : ℚ) * dt0 < xs.headD 0 ∨ xs.getLastD 0 < (j : ℚ) * dt0) := by
    rw [hhead, hlast]
    push_neg
    constructor
    · positivity
    · exact mul_le_mul_of_nonneg_right hjn1 hdt.le
  have hcount : searchsortedLeft xs ((j : ℚ) * dt0) = j := by
    rw [searchsortedLeft, hxs, List.countP_append, List.countP_map]
    have e1 : (List.range n).countP
        ((fun a => decide (a < (j : ℚ) * dt0)) ∘ (fun i : ℕ => (i : ℚ) * dt0)) =
        (List.range n).countP (fun i => decide (i < j)) := by
      apply List.countP_congr
      intro x hx
      simp only [Function.comp_apply, decide_eq_true_eq]
      rw [mul_lt_mul_right hdt, Nat.cast_lt]
    have e2 : List.countP (fun a => decide (a < (j : ℚ) * dt0))
        [((n - 1 : ℕ) : ℚ) * dt0] = 0 := by
      simp only [List.countP_cons, List.countP_nil, Nat.zero_add]
      have hge : ¬ (((n - 1 : ℕ) : ℚ) * dt0 < (j : ℚ) * dt0) :=
        not_lt.mpr (mul_le_mul_of_nonneg_right hjn1 hdt.le)
      simp [hge]
    rw [e1, e2, lem_countP_range_lt j n (by omega)]
    omega
  simp only [interpEval]
  rw [if_neg hnotor]
  simp only [hcount, hxslen, Nat.add_sub_cancel]
  rcases Nat.eq_zero_or_pos j with hj0 | hj1
  · subst hj0
    have hidx : min (max 0 1) n = 1 := by omega
    rw [hidx]
    obtain ⟨lo, hlo⟩ := Option.isSome_iff_exists.mp (hfin 0 (by omega))
    obtain ⟨hi, hhi⟩ := Option.isSome_iff_exists.mp (hfin 1 (by omega))
    rw [hxsget 1 (by omega), hxsget 0 (by omega), hlo, hhi]
    have e3 : ((1 : ℕ) : ℚ) * dt0 - ((0 : ℕ) : ℚ) * dt0 = dt0 := by
      push_cast
      ring
    have e4 : ((0 : ℕ) : ℚ) * dt0 - ((0 : ℕ) : ℚ) * dt0 = 0 := by ring
    rw [e3, e4, lem_vSub_some, lem_vDiv_some _ _ hdt.ne.symm, lem_vMul_some, lem_vAdd_some]
    norm_num
  · have hidx : min (max j 1) n = j := by omega
    rw [hidx]
    obtain ⟨lo, hlo⟩ := Option.isSome_iff_exists.mp (hfin (j - 1) (by omega))
    obtain ⟨hi, hhi⟩ := Option.isSome_iff_exists.mp (hfin j (by omega))
    rw [hxsget j (by omega), hxsget (j - 1) (by omega), hlo, hhi]
    have hstep : (j : ℚ) * dt0 - ((j - 1 : ℕ) : ℚ) * dt0 = dt0 := by
      have hcast : ((j - 1 : ℕ) : ℚ) = (j : ℚ) - 1 := by
        have h1j : (1 : ℕ) ≤ j := hj1
        push_cast [h1j]
        ring
      rw [hcast]
      ring
    rw [hstep, lem_vSub_some, lem_vDiv_some _ _ hdt.ne.symm, lem_vMul_some, lem_vAdd_some,
      div_mul_cancel₀ _ hdt.ne.symm, sub_add_cancel]

theorem lem_tFine_getLastD (n : ℕ) (dt : ℚ) (h : 0 < n) :
    (tFineOf n dt).getLastD 0 = ((n - 1 : ℕ) : ℚ) * dt := by
  rw [tFineOf, lem_getLastD_map_range _ _ h]

theorem lem_tCoarse_one (n : ℕ) (dt : ℚ) (h : 0 < n) :
    tCoarseOf n 1 dt =
      (List.range n).map (fun i : ℕ => (i : ℚ) * dt) ++ [((n - 1 : ℕ) : ℚ) * dt] := by
  rw [tCoarseOf, lem_lci_one_len, Nat.add_sub_cancel, lem_tFine_getLastD n dt h]
  norm_num

theorem lem_dtVectorOf_m1 (n : ℕ) (dt : ℚ) (hn : 0 < n) (j : ℕ) (hj : j < n) :
    (dtVectorOf ((List.range n).map (fun i : ℕ => (i : ℚ) * dt) ++
        [((n - 1 : ℕ) : ℚ) * dt])).getD j 0 =
      if j < n - 1 then dt else 0 := by
  set tc := (List.range n).map (fun i : ℕ => (i : ℚ) * dt) ++ [((n - 1 : ℕ) : ℚ) * dt]
    with htc
  have hlen : tc.length = n + 1 := by simp [htc]
  have hget : ∀ i, i ≤ n → tc.getD i 0 =
      (if i < n then (i : ℚ) else ((n - 1 : ℕ) : ℚ)) * dt := by
    intro i hi
    by_cases hin : i < n
    · rw [htc, lem_getD_append_left _ _ i (by simp; omega) 0, lem_getD_map_range _ _ _ hin,
        if_pos hin]
    · have hieq : i = n := by omega
      subst hieq
      rw [htc, lem_getD_append_right _ _ i (by simp) 0, if_neg hin]
      simp
  rw [dtVectorOf, hlen, Nat.add_sub_cancel, lem_getD_map_range _ _ _ hj,
    hget (j + 1) (by omega), hget j (by omega), if_pos (by omega : j < n)]
  by_cases hj1 : j < n - 1
  · rw [if_pos hj1, if_pos (by omega : j + 1 < n)]
    push_cast
    ring
  · rw [if_neg hj1, if_neg (by omega : ¬ j + 1 < n)]
    have hjeq : j = n - 1 := by omega
    subst hjeq
    ring

theorem lem_gc_one_getD (n a : ℕ) (i : ℕ) (hi : i ≤ n) :
    ((local_coarse_indicies n 1).map (· + a)).getD i 0 = i + a := by
  rw [lem_lci_one, List.map_append]
  by_cases hin : i < n
  · rw [lem_getD_append_left _ _ i (by simp; omega) 0]
    rw [lem_getD_map_range _ _ _ hin]
  · have hieq : i = n := by omega
    subst hieq
    rw [lem_getD_append_right _ _ i (by simp) 0]
    simp

theorem lem_stimCoarse_m1 (stimulus : List ℚ) (n a : ℕ) (t : ℕ) (ht : t < n)
    (hL : t + a < stimulus.length) :
    (stimulusCoarseOf stimulus ((local_coarse_indicies n 1).map (· + a))).getD t none =
      some (stimulus.getD (t + a) 0) := by
  have hlen : ((local_coarse_indicies n 1).map (· + a)).length = n + 1 := by
    simp [lem_lci_one]
  rw [stimulusCoarseOf, hlen, Nat.add_sub_cancel, lem_getD_map_range _ _ _ ht,
    lem_gc_one_getD n a t (by omega), lem_gc_one_getD n a (t + 1) (by omega)]
  rw [show t + 1 + a = (t + a) + 1 by omega]
  exact lem_sliceMean_single stimulus (t + a) hL

theorem lem_loopPre_eq_direct (nrn : Neuron) (D : Dyn) (stimulus : List ℚ)
    (a b : ℕ) (spikes : List ℕ) (v0 th0 : V) (asc0 : List V)
    (hm : nrn.dt_multiplier = 1) (hb : b ≤ stimulus.length) :
    ∀ t, t < b - a →
      loopPre (integCtx nrn D stimulus a b spikes) (v0, th0, asc0) t =
        directPre D stimulus spikes a nrn.dt (v0, th0, asc0) t := by
  intro t
  induction t with
  | zero => intro h; rfl
  | succ t ih =>
      intro h
      rw [loopPre, directPre, ih (by omega)]
      have hD : (integCtx nrn D stimulus a b spikes).D = D := rfl
      have hS : (integCtx nrn D stimulus a b spikes).start_index = a := rfl
      have hB : (integCtx nrn D stimulus a b spikes).bio_spike_time_steps = spikes := rfl
      have hSC : (integCtx nrn D stimulus a b spikes).stimulus_coarse =
          stimulusCoarseOf stimulus
            ((local_coarse_indicies (b - a) nrn.dt_multiplier).map (· + a)) := rfl
      have hDV : (integCtx nrn D stimulus a b spikes).dt_vector =
          dtVectorOf (tCoarseOf (b - a) nrn.dt_multiplier nrn.dt) := rfl
      rw [hD, hS, hB, hSC, hDV, hm]
      rw [lem_stimCoarse_m1 stimulus (b - a) a t (by omega) (by omega)]
      rw [lem_tCoarse_one (b - a) nrn.dt (by omega),
        lem_dtVectorOf_m1 (b - a) nrn.dt (by omega) t (by omega),
        if_pos (by omega : t < b - a - 1)]

theorem lem_loopPre_final_m1 (nrn : Neuron) (D : Dyn) (stimulus : List ℚ)
    (a b : ℕ) (spikes : List ℕ) (v0 th0 : V) (asc0 : List V)
    (hm : nrn.dt_multiplier = 1) (hb : b ≤ stimulus.length) (hn : 0 < b - a) :
    loopPre (integCtx nrn D stimulus a b spikes) (v0, th0, asc0) (b - a) =
      (let st := directPre D stimulus spikes a nrn.dt (v0, th0, asc0) (b - a - 1)
       D.dyn st.1 st.2.1 st.2.2 (some (stimulus.getD (b - a - 1 + a) 0))
         (b - a - 1 + a) spikes 0) := by
  obtain ⟨k, hk⟩ : ∃ k, b - a = k + 1 := ⟨b - a - 1, by omega⟩
  rw [hk, loopPre]
  rw [lem_loopPre_eq_direct nrn D stimulus a b spikes v0 th0 asc0 hm hb k (by omega)]
  have hD : (integCtx nrn D stimulus a b spikes).D = D := rfl
  have hS : (integCtx nrn D stimulus a b spikes).start_index = a := rfl
  have hB : (integCtx nrn D stimulus a b spikes).bio_spike_time_steps = spikes := rfl
  have hSC : (integCtx nrn D stimulus a b spikes).stimulus_coarse =
      stimulusCoarseOf stimulus
        ((local_coarse_indicies (b - a) nrn.dt_multiplier).map (· + a)) := rfl
  have hDV : (integCtx nrn D stimulus a b spikes).dt_vector =
      dtVectorOf (tCoarseOf (b - a) nrn.dt_multiplier nrn.dt) := rfl
  rw [hD, hS, hB, hSC, hDV, hm]
  rw [hk]
  rw [lem_stimCoarse_m1 stimulus (k + 1) a k (by omega) (by omega)]
  rw [lem_tCoarse_one (k + 1) nrn.dt (by omega),
    lem_dtVectorOf_m1 (k + 1) nrn.dt (by omega) k (by omega),
    if_neg (by omega : ¬ k < k + 1 - 1)]
  simp

theorem lem_stFin_voltage (st : V × V × List V) (h : stFin st = true) :
    st.1.isSome = true := by
  rcases st with ⟨v, th, asc⟩
  simp only [stFin, stateFinite, Bool.and_eq_true] at h
  exact h.1.1

theorem lem_stFin_threshold (st : V × V × List V) (h : stFin st = true) :
    st.2.1.isSome = true := by
  rcases st with ⟨v, th, asc⟩
  simp only [stFin, stateFinite, Bool.and_eq_true] at h
  exact h.1.2

theorem lem_stFin_asc (st : V × V × List V) (h : stFin st = true) :
    st.2.2.all vFinite = true := by
  rcases st with ⟨v, th, asc⟩
  simp only [stFin, stateFinite, Bool.and_eq_true] at h
  exact h.2

theorem lem_loopPre_asc_len (ctx : LoopCtx) (v0 th0 : V) (asc0 : List V)
    (hdynlen : ∀ v th asc stimv step dtv,
      ((ctx.D.dyn v th asc stimv step ctx.bio_spike_time_steps dtv).2.2).length =
        asc.length) :
    ∀ t, ((loopPre ctx (v0, th0, asc0) t).2.2).length = asc0.length := by
  intro t
  induction t with
  | zero => rfl
  | succ t ih =>
      rw [loopPre, hdynlen]
      exact ih

theorem lem_directPre_asc_len (D : Dyn) (stimulus : List ℚ) (spikes : List ℕ)
    (a : ℕ) (dt : ℚ) (v0 th0 : V) (asc0 : List V)
    (hdynlen : ∀ v th asc stimv step dtv,
      ((D.dyn v th asc stimv step spikes dtv).2.2).length = asc.length) :
    ∀ t, ((directPre D stimulus spikes a dt (v0, th0, asc0) t).2.2).length =
      asc0.length := by
  intro t
  induction t with
  | zero => rfl
  | succ t ih =>
      rw [directPre, hdynlen]
      exact ih

/-- C2 (amended).  For an interval of fine length at least 2 run with
refinement factor 1, `run_until_biological_spike` returns normally with
voltage, threshold and after-spike-current trajectories identical to the
direct step-by-step simulation at fine resolution (each dynamics call made
with step size dt) — interpolation onto the grid the data was sampled on is
the identity.  However, the final state entering spike detection and reset
is NOT the direct final state: because the appended last coarse node
duplicates the last fine time, the last bin has width zero and the final
dynamics call is made with dt 0, so that state is the direct state after
n-1 steps advanced by one zero-width call.  (The original claim fails for
length-1 intervals too: see the counterexample, where the returned
trajectory is a non-finite sample produced by 0/0 interpolation.) -/
theorem c2_refinement_factor_one
    (nrn : Neuron) (D : Dyn) (v0 th0 : V) (asc0 : List V)
    (stimulus response : List ℚ) (a b : ℕ) (spikes : List ℕ)
    (hm : nrn.dt_multiplier = 1) (hdt : 0 < nrn.dt)
    (hn : 2 ≤ b - a) (hb : b ≤ stimulus.length)
    (hadapt : nrn.adapt_sum_slow_fast = false)
    (hdynlen : ∀ v th asc stimv step dtv,
      ((D.dyn v th asc stimv step spikes dtv).2.2).length = asc.length)
    (hfin : ∀ t, t < b - a →
      stFin (directPre D stimulus spikes a nrn.dt (v0, th0, asc0) t) = true) :
    ∃ rd : RunData,
      (run_until_biological_spike nrn D v0 th0 asc0 stimulus response a b spikes).1 =
        .ok rd ∧
      rd.voltage = (List.range (b - a)).map
        (fun j => (directPre D stimulus spikes a nrn.dt (v0, th0, asc0) j).1) ∧
      rd.threshold = (List.range (b - a)).map
        (fun j => (directPre D stimulus spikes a nrn.dt (v0, th0, asc0) j).2.1) ∧
      rd.AScurrent_matrix = (List.range (b - a)).map
        (fun j => (directPre D stimulus spikes a nrn.dt (v0, th0, asc0) j).2.2) ∧
      rd.grid_bio_spike_model_voltage =
        (D.dyn (directPre D stimulus spikes a nrn.dt (v0, th0, asc0) (b - a - 1)).1
          (directPre D stimulus spikes a nrn.dt (v0, th0, asc0) (b - a - 1)).2.1
          (directPre D stimulus spikes a nrn.dt (v0, th0, asc0) (b - a - 1)).2.2
          (some (stimulus.getD (b - a - 1 + a) 0)) (b - a - 1 + a) spikes 0).1 ∧
      rd.grid_bio_spike_model_threshold =
        (D.dyn (directPre D stimulus spikes a nrn.dt (v0, th0, asc0) (b - a - 1)).1
          (directPre D stimulus spikes a nrn.dt (v0, th0, asc0) (b - a - 1)).2.1
          (directPre D stimulus spikes a nrn.dt (v0, th0, asc0) (b - a - 1)).2.2
          (some (stimulus.getD (b - a - 1 + a) 0)) (b - a - 1 + a) spikes 0).2.1 := by
  have hpos : 0 < b - a := by omega
  have hT : (local_coarse_indicies (b - a) nrn.dt_multiplier).length - 1 = b - a := by
    rw [hm, lem_lci_one_len, Nat.add_sub_cancel]
  have hloopdir := lem_loopPre_eq_direct nrn D stimulus a b spikes v0 th0 asc0 hm hb
  have hfinL : ∀ t, t < (local_coarse_indicies (b - a) nrn.dt_multiplier).length - 1 →
      stFin (loopPre (integCtx nrn D stimulus a b spikes) (v0, th0, asc0) t) = true := by
    intro t ht
    rw [hT] at ht
    rw [hloopdir t ht]
    exact hfin t ht
  have heq := lem_run_until_eq_ok nrn D v0 th0 asc0 stimulus response a b spikes
    (by omega) (by rw [hm]; omega) hfinL
  rw [hT] at heq
  set ctx := integCtx nrn D stimulus a b spikes with hctx
  set st0 : V × V × List V := (v0, th0, asc0) with hst0
  have hctxn : ctx.num_time_steps_fine = b - a := rfl
  have hctxtc : ctx.t_coarse_grid =
      (List.range (b - a)).map (fun i : ℕ => (i : ℚ) * nrn.dt) ++
        [((b - a - 1 : ℕ) : ℚ) * nrn.dt] := by
    have h0 : ctx.t_coarse_grid = tCoarseOf (b - a) nrn.dt_multiplier nrn.dt := rfl
    rw [h0, hm, lem_tCoarse_one (b - a) nrn.dt hpos]
  have hloleneq : ∀ t, ((loopPre ctx st0 t).2.2).length = asc0.length := by
    refine lem_loopPre_asc_len ctx v0 th0 asc0 ?_
    intro v th asc stimv step dtv
    exact hdynlen v th asc stimv step dtv
  have hvbuf : coarseV ctx st0 (b - a) ++ [(loopPre ctx st0 (b - a)).1] =
      coarseV ctx st0 (b - a + 1) := (lem_coarseV_succ ctx st0 (b - a)).symm
  have hthbuf : coarseTh ctx st0 (b - a) ++ [(loopPre ctx st0 (b - a)).2.1] =
      coarseTh ctx st0 (b - a + 1) := (lem_coarseTh_succ ctx st0 (b - a)).symm
  have habuf : coarseA ctx st0 (b - a) ++ [(loopPre ctx st0 (b - a)).2.2] =
      coarseA ctx st0 (b - a + 1) := (lem_coarseA_succ ctx st0 (b - a)).symm
  have hvget : ∀ i, i < b - a + 1 →
      (coarseV ctx st0 (b - a + 1)).getD i none = (loopPre ctx st0 i).1 := by
    intro i hi
    rw [coarseV, lem_getD_map_range _ _ _ hi]
  have hthget : ∀ i, i < b - a + 1 →
      (coarseTh ctx st0 (b - a + 1)).getD i none = (loopPre ctx st0 i).2.1 := by
    intro i hi
    rw [coarseTh, lem_getD_map_range _ _ _ hi]
  have hvlen : (coarseV ctx st0 (b - a + 1)).length = b - a + 1 := by simp [coarseV]
  have hthlen : (coarseTh ctx st0 (b - a + 1)).length = b - a + 1 := by simp [coarseTh]
  have hvfin : ∀ i, i < b - a →
      ((coarseV ctx st0 (b - a + 1)).getD i none).isSome = true := by
    intro i hi
    rw [hvget i (by omega), hloopdir i hi]
    exact lem_stFin_voltage _ (hfin i hi)
  have hthfin : ∀ i, i < b - a →
      ((coarseTh ctx st0 (b - a + 1)).getD i none).isSome = true := by
    intro i hi
    rw [hthget i (by omega), hloopdir i hi]
    exact lem_stFin_threshold _ (hfin i hi)
  have hfinal := lem_loopPre_final_m1 nrn D stimulus a b spikes v0 th0 asc0 hm hb hpos
  refine ⟨_, by rw [heq], ?_, ?_, ?_, ?_, ?_⟩
  · -- voltage trajectory
    simp only [runUntilSuccess, hctxn, hctxtc, hvbuf, List.map_map]
    apply List.map_congr_left
    intro j hj
    have hjn : j < b - a := List.mem_range.mp hj
    simp only [Function.comp_apply]
    rw [lem_interp_node_m1 (b - a) hn nrn.dt hdt _ hvlen hvfin _ j hjn,
      hvget j (by omega), hloopdir j hjn]
  · -- threshold trajectory
    simp only [runUntilSuccess, hctxn, hctxtc, hthbuf, List.map_map]
    apply List.map_congr_left
    intro j hj
    have hjn : j < b - a := List.mem_range.mp hj
    simp only [Function.comp_apply]
    rw [lem_interp_node_m1 (b - a) hn nrn.dt hdt _ hthlen hthfin _ j hjn,
      hthget j (by omega), hloopdir j hjn]
  · -- after-spike-current matrix
    simp only [runUntilSuccess, hctxn, hctxtc, habuf, List.map_map]
    apply List.map_congr_left
    intro j hj
    have hjn : j < b - a := List.mem_range.mp hj
    simp only [Function.comp_apply]
    have hlenrw : ((loopPre ctx st0 (b - a)).2.2).length =
        ((loopPre ctx st0 j).2.2).length := by
      rw [hloleneq, hloleneq]
    rw [← hloopdir j hjn]
    conv_rhs => rw [← lem_map_range_getD ((loopPre ctx st0 j).2.2) none]
    rw [hlenrw]
    apply List.map_congr_left
    intro ii hii
    have hii' : ii < asc0.length := by
      rw [← hloleneq j]
      exact List.mem_range.mp hii
    have hys : (coarseA ctx st0 (b - a + 1)).map (fun row => row.getD ii none) =
        (List.range (b - a + 1)).map
          (fun t => ((loopPre ctx st0 t).2.2).getD ii none) := by
      rw [coarseA, List.map_map]
      rfl
    rw [hys]
    rw [lem_interp_node_m1 (b - a) hn nrn.dt hdt _ (by simp) ?_ _ j hjn,
      lem_getD_map_range _ _ _ (by omega : j < b - a + 1)]
    intro i hi
    rw [lem_getD_map_range _ _ _ (by omega : i < b - a + 1)]
    refine lem_all_getD_isSome _ ?_ ii ?_
    · rw [hloopdir i hi]
      exact lem_stFin_asc _ (hfin i hi)
    · rw [hloleneq i]
      exact hii'
  · -- final voltage entering detection and reset: the zero-width last step
    rw [← hctx, ← hst0] at hfinal
    simp only [runUntilSuccess, hadapt, Bool.false_eq_true, false_and, if_false]
    rw [hfinal]
  · -- final threshold entering detection and reset
    rw [← hctx, ← hst0] at hfinal
    simp only [runUntilSuccess]
    rw [hfinal]

/-- Witness for C2: a concrete two-step interval with refinement factor 1,
where the hypotheses of `c2_refinement_factor_one` are discharged by
computation. -/
theorem c2_refinement_factor_one_witness :
    ∃ rd : RunData,
      (run_until_biological_spike nrnM1 dynNan1 (some 0) (some 1) [] [0, 0] [0, 0]
          0 2 []).1 = .ok rd ∧
      rd.voltage = (List.range (2 - 0)).map
        (fun j => (directPre dynNan1 [0, 0] [] 0 nrnM1.dt (some 0, some 1, []) j).1) ∧
      rd.threshold = (List.range (2 - 0)).map
        (fun j => (directPre dynNan1 [0, 0] [] 0 nrnM1.dt (some 0, some 1, []) j).2.1) ∧
      rd.AScurrent_matrix = (List.range (2 - 0)).map
        (fun j => (directPre dynNan1 [0, 0] [] 0 nrnM1.dt (some 0, some 1, []) j).2.2) ∧
      rd.grid_bio_spike_model_voltage =
        (dynNan1.dyn
          (directPre dynNan1 [0, 0] [] 0 nrnM1.dt (some 0, some 1, []) (2 - 0 - 1)).1
          (directPre dynNan1 [0, 0] [] 0 nrnM1.dt (some 0, some 1, []) (2 - 0 - 1)).2.1
          (directPre dynNan1 [0, 0] [] 0 nrnM1.dt (some 0, some 1, []) (2 - 0 - 1)).2.2
          (some (List.getD [0, 0] (2 - 0 - 1 + 0) 0)) (2 - 0 - 1 + 0) [] 0).1 ∧
      rd.grid_bio_spike_model_threshold =
        (dynNan1.dyn
          (directPre dynNan1 [0, 0] [] 0 nrnM1.dt (some 0, some 1, []) (2 - 0 - 1)).1
          (directPre dynNan1 [0, 0] [] 0 nrnM1.dt (some 0, some 1, []) (2 - 0 - 1)).2.1
          (directPre dynNan1 [0, 0] [] 0 nrnM1.dt (some 0, some 1, []) (2 - 0 - 1)).2.2
          (some (List.getD [0, 0] (2 - 0 - 1 + 0) 0)) (2 - 0 - 1 + 0) [] 0).2.1 := by
  exact c2_refinement_factor_one nrnM1 dynNan1 (some 0) (some 1) [] [0, 0] [0, 0] 0 2 []
    (by decide) (by decide) (by decide) (by decide) (by decide)
    (fun v th asc stimv step dtv => rfl) (by decide)

/-- Counterexample to the original C2 wording: for a length-1 interval with
refinement factor 1 the returned voltage trajectory is a single non-finite
(NaN) sample — the degenerate coarse grid [0, 0] makes the interpolation
slope 0/0 — while the direct step-by-step simulation yields the finite
initial voltage. -/
theorem c2_zero_width_last_bin_nan :
    (run_until_biological_spike nrnM1 dynConst (some 0) (some 3) [] [0] [0]
        0 1 []).1.map RunData.voltage = .ok [none] ∧
    (List.range 1).map
        (fun j => (directPre dynConst [0] [] 0 nrnM1.dt (some 0, some 3, []) j).1) =
      [some 0] ∧
    ([none] : List V) ≠ [some 0] := by
  refine ⟨by decide, by decide, by decide⟩

/-- C10.  The NaN/Inf invalid-state check (line 538) only inspects the state
recorded before each dynamics call.  If every recorded state is finite, the
interval returns normally even when the final dynamics call of the interval
produces a non-finite voltage: the run returns `.ok`, the unchecked value is
stored in the result (as the one-past-end detection sample
`grid_bio_spike_model_voltage`), and when a reset is performed it is handed
to the external reset rule as its voltage input — no invalid-state failure
is raised within the interval. -/
theorem c10_last_step_unchecked
    (nrn : Neuron) (D : Dyn) (v0 th0 : V) (asc0 : List V)
    (stimulus response : List ℚ) (a b : ℕ) (spikes : List ℕ)
    (hne : ¬ b - a = 0) (hm : ¬ nrn.dt_multiplier = 0)
    (hadapt : nrn.adapt_sum_slow_fast = false)
    (hfinL : ∀ t, t < (local_coarse_indicies (b - a) nrn.dt_multiplier).length - 1 →
      stFin (loopPre (integCtx nrn D stimulus a b spikes) (v0, th0, asc0) t) = true)
    (hnan : (loopPre (integCtx nrn D stimulus a b spikes) (v0, th0, asc0)
      ((local_coarse_indicies (b - a) nrn.dt_multiplier).length - 1)).1 = none) :
    ∃ rd : RunData,
      (run_until_biological_spike nrn D v0 th0 asc0 stimulus response a b spikes).1 =
        .ok rd ∧
      rd.grid_bio_spike_model_voltage = none ∧
      (0 < spikes.length → b < stimulus.length →
        rd.voltage_t0 = some (D.rst none
          (loopPre (integCtx nrn D stimulus a b spikes) (v0, th0, asc0)
            ((local_coarse_indicies (b - a) nrn.dt_multiplier).length - 1)).2.1
          (loopPre (integCtx nrn D stimulus a b spikes) (v0, th0, asc0)
            ((local_coarse_indicies (b - a) nrn.dt_multiplier).length - 1)).2.2).1) := by
  have heq := lem_run_until_eq_ok nrn D v0 th0 asc0 stimulus response a b spikes
    hne hm hfinL
  refine ⟨_, by rw [heq], ?_, ?_⟩
  · simp only [runUntilSuccess, hadapt, Bool.false_eq_true, false_and, if_false]
    exact hnan
  · intro hs hb
    simp only [runUntilSuccess, hadapt, Bool.false_eq_true, false_and, if_false]
    rw [if_pos hs, if_pos hb, hnan]

/-- Witness for C10: with finite pre-call states at every recorded coarse
step but a dynamics rule that turns the voltage non-finite on the very last
call of the interval, the run returns `.ok` and the reset rule receives the
unchecked non-finite voltage. -/
theorem c10_last_step_unchecked_witness :
    ∃ rd : RunData,
      (run_until_biological_spike nrnM1 dynNan1 (some 0) (some 1) [] [0, 0, 0]
          [0, 0, 0] 0 2 [0]).1 = .ok rd ∧
      rd.grid_bio_spike_model_voltage = none ∧
      (0 < [0].length → 2 < [(0 : ℚ), 0, 0].length →
        rd.voltage_t0 = some (dynNan1.rst none
          (loopPre (integCtx nrnM1 dynNan1 [0, 0, 0] 0 2 [0]) (some 0, some 1, [])
            ((local_coarse_indicies (2 - 0) nrnM1.dt_multiplier).length - 1)).2.1
          (loopPre (integCtx nrnM1 dynNan1 [0, 0, 0] 0 2 [0]) (some 0, some 1, [])
            ((local_coarse_indicies (2 - 0) nrnM1.dt_multiplier).length - 1)).2.2).1) := by
  exact c10_last_step_unchecked nrnM1 dynNan1 (some 0) (some 1) [] [0, 0, 0] [0, 0, 0]
    0 2 [0] (by decide) (by decide) (by decide) (by decide) (by decide)

theorem lem_bounds_sum (cut L : ℕ) :
    ∀ (spikes : List ℕ) (start : ℕ), validSpikes cut L start spikes = true →
      ((driverIntervalBounds cut L start spikes).map (fun p => p.2 - p.1)).sum +
        spikes.length * cut + start = L := by
  intro spikes
  induction spikes with
  | nil =>
      intro start hv
      simp only [validSpikes] at hv
      have h1 : start ≤ L := of_decide_eq_true hv
      simp only [driverIntervalBounds, List.map_cons, List.map_nil, List.sum_cons,
        List.sum_nil, List.length_nil]
      omega
  | cons s rest ih =>
      intro start hv
      simp only [validSpikes, Bool.and_eq_true] at hv
      have h1 : start < s := of_decide_eq_true hv.1
      have h2 := ih (s + cut) hv.2
      simp only [driverIntervalBounds, List.map_cons, List.sum_cons, List.length_cons,
        Nat.succ_mul]
      omega

theorem lem_run_until_ok_voltage_len
    (nrn : Neuron) (D : Dyn) (v0 th0 : V) (asc0 : List V)
    (stimulus response : List ℚ) (a b : ℕ) (spikes : List ℕ) (rd : RunData)
    (h : (run_until_biological_spike nrn D v0 th0 asc0 stimulus response a b spikes).1 =
      .ok rd) :
    rd.voltage.length = b - a := by
  simp only [run_until_biological_spike] at h
  split at h
  · exact absurd h (by simp)
  · split at h
    · exact absurd h (by simp)
    · split at h
      · exact absurd h (by simp)
      · simp only [Except.ok.injEq] at h
        rw [← h]
        simp [runUntilSuccess, integCtx]

/-- C8 (amended).  For valid, strictly increasing biological spike indices
with gaps exceeding the spike-cut length, the sum of the fine-grid lengths
of the intervals the Driver integrates (one ending at each spike, plus the
trailing tail; each next start jumping `spike_cut_length` past the previous
spike, per lines 187-253) is `len(stimulus) - num_spikes * spike_cut_length`,
not `len(stimulus)`: the cut samples after each spike belong to no interval.
The second conjunct ties the bound bookkeeping to the integrator: every
normal interval result carries a voltage trajectory of exactly
`end_index - start_index` fine samples. -/
theorem c8_interval_length_sum :
    (∀ (cut L : ℕ) (spikes : List ℕ),
      validSpikes cut L 0 spikes = true →
      ((driverIntervalBounds cut L 0 spikes).map (fun p => p.2 - p.1)).sum =
        L - spikes.length * cut) ∧
    (∀ (nrn : Neuron) (D : Dyn) (v0 th0 : V) (asc0 : List V)
       (stimulus response : List ℚ) (a b : ℕ) (spikes : List ℕ) (rd : RunData),
      (run_until_biological_spike nrn D v0 th0 asc0 stimulus response a b spikes).1 =
        .ok rd →
      rd.voltage.length = b - a) := by
  constructor
  · intro cut L spikes hv
    have h := lem_bounds_sum cut L spikes 0 hv
    omega
  · intro nrn D v0 th0 asc0 stimulus response a b spikes rd h
    exact lem_run_until_ok_voltage_len nrn D v0 th0 asc0 stimulus response a b spikes rd h

/-- Witness for C8: two spikes at 5 and 10 with cut length 2 in a stimulus
of length 20 give intervals [0,5), [7,10), [12,20) totalling 16 = 20 - 2*2
samples, and a concrete two-step interval run returns a voltage trajectory
of length 2. -/
theorem c8_interval_length_sum_witness :
    (validSpikes 2 20 0 [5, 10] = true ∧
      ((driverIntervalBounds 2 20 0 [5, 10]).map (fun p => p.2 - p.1)).sum =
        20 - [5, 10].length * 2) ∧
    (∃ rd : RunData,
      (run_until_biological_spike nrnM1 dynConst (some 0) (some 1) [] [0, 0] [0, 0]
          0 2 []).1 = .ok rd ∧ rd.voltage.length = 2 - 0) := by
  constructor
  · exact ⟨by decide, c8_interval_length_sum.1 2 20 [5, 10] (by decide)⟩
  · have hok : isOk (run_until_biological_spike nrnM1 dynConst (some 0) (some 1) []
        [0, 0] [0, 0] 0 2 []).1 = true := by decide
    cases hv : (run_until_biological_spike nrnM1 dynConst (some 0) (some 1) []
        [0, 0] [0, 0] 0 2 []).1 with
    | error e => rw [hv] at hok; exact absurd hok (by simp [isOk])
    | ok rd =>
        exact ⟨rd, rfl, c8_interval_length_sum.2 nrnM1 dynConst (some 0) (some 1) []
          [0, 0] [0, 0] 0 2 [] rd hv⟩

/-- Counterexample to the original C8 wording: one spike at index 5 with
spike-cut length 2 in a stimulus of length 10 is valid (gap exceeds the
cut), yet the intervals are [0,5) and [7,10), summing to 8 samples, not 10:
the two cut samples after the spike belong to no interval. -/
theorem c8_sum_not_stimulus_length :
    validSpikes 2 10 0 [5] = true ∧
    driverIntervalBounds 2 10 0 [5] = [(0, 5), (7, 10)] ∧
    ((driverIntervalBounds 2 10 0 [5]).map (fun p => p.2 - p.1)).sum = 8 ∧
    (8 : ℕ) ≠ 10 := by
  refine ⟨by decide, by decide, by decide, by decide⟩

theorem lem_setSlice_len (arr : List V) (a b : ℕ) (vals : List V)
    (h : vals.length = pySliceLen arr.length a b) :
    (setSlice arr a vals).length = arr.length := by
  simp only [pySliceLen] at h
  simp only [setSlice, List.length_append, List.length_take, List.length_drop]
  omega

theorem lem_setSliceM_len (arr : List (List V)) (a b : ℕ) (vals : List (List V))
    (h : vals.length = pySliceLen arr.length a b) :
    (setSliceM arr a vals).length = arr.length := by
  simp only [pySliceLen] at h
  simp only [setSliceM, List.length_append, List.length_take, List.length_drop]
  omega

theorem lem_spliceTraj_shape (acc acc2 : SimOut) (a b L n : ℕ)
    (v th : List V) (am : List (List V))
    (hacc : simOutShape L n acc)
    (h : spliceTraj acc a b v th am = some acc2) :
    simOutShape L n acc2 := by
  simp only [spliceTraj] at h
  split at h
  · rename_i hc
    obtain ⟨h1, h2, h3, h4, h5, h6, h7, h8, h9, h10, h11⟩ := hacc
    simp only [Option.some.injEq] at h
    rw [← h]
    refine ⟨?_, ?_, ?_, h4, h5, h6, h7, h8, h9, h10, h11⟩
    · rw [lem_setSlice_len acc.voltage a b v hc.1]; exact h1
    · rw [lem_setSlice_len acc.threshold a b th hc.2.1]; exact h2
    · rw [lem_setSliceM_len acc.AScurrent_matrix a b am hc.2.2]; exact h3
  · exact absurd h (by simp)

theorem lem_shape_set_updates (acc2 : SimOut) (L n : ℕ) (h : simOutShape L n acc2)
    (k : ℕ) (a1 a2 a3 a4 a5 a6 a7 a8 : V) :
    simOutShape L n { acc2 with
      grid_ISI := acc2.grid_ISI.set k a1
      interpolated_ISI := acc2.interpolated_ISI.set k a2
      grid_model_spike_times := acc2.grid_model_spike_times.set k a3
      interpolated_model_spike_times := acc2.interpolated_model_spike_times.set k a4
      grid_model_spike_voltages := acc2.grid_model_spike_voltages.set k a5
      interpolated_model_spike_voltages :=
        acc2.interpolated_model_spike_voltages.set k a6
      grid_bio_spike_model_voltage := acc2.grid_bio_spike_model_voltage.set k a7
      grid_bio_spike_model_threshold :=
        acc2.grid_bio_spike_model_threshold.set k a8 } := by
  obtain ⟨h1, h2, h3, h4, h5, h6, h7, h8, h9, h10, h11⟩ := h
  exact ⟨h1, h2, h3, by simpa using h4, by simpa using h5, by simpa using h6,
    by simpa using h7, by simpa using h8, by simpa using h9, by simpa using h10,
    by simpa using h11⟩

theorem lem_driverLoop_outShape (nrn : Neuron) (D : Dyn)
    (stimulus response : List ℚ) (spikes_all : List ℕ) (L n : ℕ) :
    ∀ (rest : List ℕ) (k start last : ℕ) (st : V × V × List V) (acc : SimOut),
      simOutShape L n acc →
      driverOutShape L n
        (driverLoop nrn D stimulus response spikes_all rest k start last st acc) := by
  intro rest
  induction rest with
  | nil =>
      intro k start last st acc hacc
      exact hacc
  | cons s rest ih =>
      intro k start last st acc hacc
      obtain ⟨v0, th0, asc0⟩ := st
      simp only [driverLoop]
      split
      · split
        · -- invalid-state failure in this interval: splice then re-raise
          split
          · trivial
          · rename_i acc2 hsp
            exact lem_spliceTraj_shape acc acc2 start s L n _ _ _ hacc hsp
        · trivial
        · -- normal interval: splice, record per-spike scalars, recurse
          split
          · trivial
          · rename_i acc2 hsp
            exact ih (k + 1) (s + nrn.spike_cut_length) s _ _
              (lem_shape_set_updates acc2 L n
                (lem_spliceTraj_shape acc acc2 start s L n _ _ _ hacc hsp)
                k _ _ _ _ _ _ _ _)
      · trivial

/-- C1 (amended).  When the driver re-raises the invalid-state failure
(GlifNeuronException) it does carry a complete, correctly-shaped payload:
trajectory arrays of the stimulus length and per-spike arrays with one slot
per biological spike.  But that exit only happens for a failure inside one
of the per-spike intervals; the zero-biological-spike path never produces
it — there the handler of lines 272-274 assigns into local arrays that were
never bound, so the caller gets an UnboundLocalError with no payload at all
(and a tail-interval failure becomes a broadcast ValueError, also without
the payload). -/
theorem c1_failure_payload_shape
    (nrn : Neuron) (D : Dyn) (stimulus response : List ℚ) (spikes : List ℕ) :
    (∀ out : SimOut,
      run_with_biological_spikes nrn D stimulus response spikes =
        .error (.glifNeuron out) →
      simOutShape stimulus.length spikes.length out) ∧
    (spikes = [] → ∀ out : SimOut,
      run_with_biological_spikes nrn D stimulus response spikes ≠
        .error (.glifNeuron out)) := by
  constructor
  · intro out h
    simp only [run_with_biological_spikes] at h
    split at h
    · exact absurd h (by simp)
    · split at h
      · -- zero-spike path: no glifNeuron exit exists
        split at h
        · exact absurd h (by simp)
        · exact absurd h (by simp)
        · split at h
          · exact absurd h (by simp)
          · exact absurd h (by simp)
      · -- spiked path
        have hd := lem_driverLoop_outShape nrn D stimulus response spikes
          stimulus.length spikes.length spikes 0 0 0
          (nrn.init_voltage, nrn.init_threshold, nrn.init_AScurrents)
          ⟨List.replicate stimulus.length none,
           List.replicate stimulus.length none,
           List.replicate stimulus.length
             (List.replicate nrn.init_AScurrents.length none),
           List.replicate spikes.length none, List.replicate spikes.length none,
           List.replicate spikes.length none, List.replicate spikes.length none,
           List.replicate spikes.length none, List.replicate spikes.length none,
           List.replicate spikes.length none, List.replicate spikes.length none⟩
          (by simp [simOutShape])
        split at h
        · -- the loop itself failed: glifNeuron only with a shaped payload
          rename_i e hE
          simp only [Except.error.injEq] at h
          subst h
          rw [hE] at hd
          exact hd
        · -- the loop succeeded; the tail interval ran
          rename_i acc sidx lend st2 hE
          rw [hE] at hd
          have hacc : simOutShape stimulus.length spikes.length acc := hd
          split at h
          · -- tail invalid-state failure: splice at the stale end index
            split at h
            · exact absurd h (by simp)
            · rename_i acc2 hsp
              simp only [Except.error.injEq, DErr.glifNeuron.injEq] at h
              rw [← h]
              exact lem_spliceTraj_shape acc acc2 sidx lend stimulus.length
                spikes.length _ _ _ hacc hsp
          · exact absurd h (by simp)
          · -- tail succeeded: the remaining exits are not glifNeuron
            split at h
            · exact absurd h (by simp)
            · split at h
              · exact absurd h (by simp)
              · exact absurd h (by simp)
  · intro hnil out h
    subst hnil
    simp only [run_with_biological_spikes] at h
    split at h
    · exact absurd h (by simp)
    · split at h
      · split at h
        · exact absurd h (by simp)
        · exact absurd h (by simp)
        · split at h
          · exact absurd h (by simp)
          · exact absurd h (by simp)
      · rename_i hcond
        exact absurd rfl hcond

/-- Witness for C1: a run with one biological spike whose interval hits a
non-finite state at coarse step 2 exits with the re-raised
GlifNeuronException, and its payload has trajectory arrays of the stimulus
length (6) and per-spike arrays of length 1. -/
theorem c1_failure_payload_shape_witness :
    ∃ out : SimOut,
      run_with_biological_spikes nrnM1 dynNan1 [0, 0, 0, 0, 0, 0]
          [0, 0, 0, 0, 0, 0] [4] = .error (.glifNeuron out) ∧
      simOutShape [(0 : ℚ), 0, 0, 0, 0, 0].length [(4 : ℕ)].length out := by
  have hg : (glifPayload (run_with_biological_spikes nrnM1 dynNan1 [0, 0, 0, 0, 0, 0]
      [0, 0, 0, 0, 0, 0] [4])).isSome = true := by decide
  cases hv : run_with_biological_spikes nrnM1 dynNan1 [0, 0, 0, 0, 0, 0]
      [0, 0, 0, 0, 0, 0] [4] with
  | ok o => rw [hv] at hg; exact absurd hg (by simp [glifPayload])
  | error e =>
      cases e with
      | glifNeuron out =>
          exact ⟨out, rfl, (c1_failure_payload_shape nrnM1 dynNan1 [0, 0, 0, 0, 0, 0]
            [0, 0, 0, 0, 0, 0] [4]).1 out hv⟩
      | typeError => rw [hv] at hg; exact absurd hg (by simp [glifPayload])
      | assertionError => rw [hv] at hg; exact absurd hg (by simp [glifPayload])
      | numSpikesMismatch => rw [hv] at hg; exact absurd hg (by simp [glifPayload])
      | unboundLocal => rw [hv] at hg; exact absurd hg (by simp [glifPayload])
      | broadcastError => rw [hv] at hg; exact absurd hg (by simp [glifPayload])
      | otherError => rw [hv] at hg; exact absurd hg (by simp [glifPayload])

/-- Counterexample to the original C1 wording: a non-finite state reached on
the zero-biological-spike path does not produce the re-raised
GlifNeuronException with a shaped payload — the handler reads the local
`voltage` array that was never bound on that path, so the caller gets an
UnboundLocalError carrying nothing. -/
theorem c1_zero_spike_unbound_local :
    run_with_biological_spikes nrnM1 dynNan1 [0, 0, 0, 0] [0, 0, 0, 0] [] =
      .error .unboundLocal := by
  decide

end Glif